import Mathlib

/-!
Verification of the Directory Scanning & Metadata Reconciliation Core of the
`profullstack/music` repository: a shallow embedding in Lean 4 of
`FileScanner` (src/utils/file-scanner.js), `MetadataScanner`
(src/utils/metadata-scanner.js) and `Publisher.detectPlatform`
(src/services/publisher.js), together with theorems settling the frozen
claims about platform detection, directory scanning, filename parsing,
title-based reconciliation and album validation.

Modelling conventions:
* JavaScript strings are `List Char`; file-system paths are lists of path
  segments (`List (List Char)`); `path.join(a, b)` is `a ++ [b]`.
* Asynchronous file-system primitives (`readdir`, `stat`, `readFile`)
  become explicit function parameters returning `Except FsErr _`; a
  rejected promise is the `.error` case.  `JSON.parse` composed with the
  metadata-object field reads is abstracted as a `Str → Option AlbumMetadata`
  parameter of the scan environment.
* Thrown `Error` objects are modelled by the opaque type `JsErr`; each
  `catch (e) { throw new Error(...) }` site adds a `.wrap` constructor
  (message text is not load-bearing for any claim and is not modelled).
* `parseInt(digits, 10)` on a digit string is modelled exactly on `Nat`.
* Character classes (`\s`, `\d`, `[A-Z]`, …) follow the ECMAScript ASCII
  and Unicode white-space table; `toLowerCase` is modelled by `Char.toLower`
  (ASCII case mapping; non-ASCII letters are case-invariant in the model).
-/

/-- JavaScript strings, modelled as lists of characters. -/
abbrev Str := List Char

/-- Paths as lists of segments; `path.join(p, seg)` is `p ++ [seg]`. -/
abbrev FsPath := List Str

/-- The ECMAScript white-space class `\s` (WhiteSpace ∪ LineTerminator):
space, tab, LF, VT, FF, CR, NBSP, and the Unicode space separators,
LINE/PARAGRAPH SEPARATOR, NNBSP, MMSP, IDEOGRAPHIC SPACE and BOM.
`String.prototype.trim` removes exactly the same set. -/
def isWsChar (c : Char) : Bool :=
  c.toNat == 0x20 || (0x9 ≤ c.toNat && c.toNat ≤ 0xd) || c.toNat == 0xa0 ||
  c.toNat == 0x1680 || (0x2000 ≤ c.toNat && c.toNat ≤ 0x200a) ||
  c.toNat == 0x2028 || c.toNat == 0x2029 || c.toNat == 0x202f ||
  c.toNat == 0x205f || c.toNat == 0x3000 || c.toNat == 0xfeff

/-- The character class `[-\s]` used by the track-number patterns of both
scanners: a hyphen or ECMAScript white space. -/
def isSepChar (c : Char) : Bool :=
  isWsChar c || c.toNat == 0x2d

/-- The ECMAScript LineTerminator class: LF, CR, LINE SEPARATOR and
PARAGRAPH SEPARATOR.  The dot `.` of a regular expression without the `s`
flag matches every character except these four (all four are also in
`\s`, hence in `[-\s]`). -/
def isLineTermCh (c : Char) : Bool :=
  c.toNat == 0xa || c.toNat == 0xd || c.toNat == 0x2028 || c.toNat == 0x2029

/-- The ECMAScript digit class `\d` = `[0-9]` (code points 48–57). -/
def isDigitCh (c : Char) : Bool :=
  48 ≤ c.toNat && c.toNat ≤ 57

/-- The class `[A-Z]` used by the ISRC pattern (code points 65–90). -/
def isUpperCh (c : Char) : Bool :=
  65 ≤ c.toNat && c.toNat ≤ 90

/-- The class `[A-Z0-9]` used by the ISRC pattern. -/
def isUpperDigitCh (c : Char) : Bool :=
  isUpperCh c || isDigitCh c

/-- Remove trailing white space (the second half of `trim`). -/
def dropTrailWs (s : Str) : Str :=
  (s.reverse.dropWhile isWsChar).reverse

/-- Model of `String.prototype.trim()`: strip leading and trailing white space. -/
def trimWs (s : Str) : Str :=
  dropTrailWs (s.dropWhile isWsChar)

/-- Model of `parseInt(d, 10)` for a non-empty all-digit string `d` (exact, no
floating-point rounding is modelled). -/
def digitsToNat (d : Str) : Nat :=
  d.foldl (fun a c => 10 * a + (c.toNat - 48)) 0

/-- The decimal digit character for `d < 10`. -/
def digitCh (d : Nat) : Char :=
  Char.ofNat (48 + d)

/-- Fuel-indexed decimal printer (structural recursion so that concrete
instances reduce in the kernel); `fuel` must exceed `n`. -/
def natToStrAux (fuel : Nat) (n : Nat) : Str :=
  match fuel with
  | 0 => []
  | f + 1 =>
    if n < 10 then [digitCh n]
    else natToStrAux f (n / 10) ++ [digitCh (n % 10)]

/-- Decimal rendering of a natural number, as produced by JavaScript
template interpolation `${n}` for a non-negative integer. -/
def natToStr (n : Nat) : Str :=
  natToStrAux (n + 1) n

/-- Model of `path.extname(f)` for a bare file name `f` (no directory separators):
the substring from the last `'.'` to the end, or `""` when there is no dot,
when the only dot is the leading character (dot-files have no extension),
or when the name is exactly `'..'` (Node's trimmed-`'..'`-component rule). -/
def extnameOf (f : Str) : Str :=
  if f = ['.', '.'] then []
  else
    let tl := f.reverse.takeWhile (fun c => c != '.')
    if tl.length == f.length then []
    else if tl.length + 1 == f.length then []
    else '.' :: tl.reverse

/-- Model of `path.basename(f, path.extname(f))`: the file name with its extension
removed (the scanners' `nameWithoutExt`). -/
def stemOf (f : Str) : Str :=
  f.take (f.length - (extnameOf f).length)

/-- The extension normalised the way both scanners do it:
`extname(filename).toLowerCase().slice(1)`. -/
def extLower (f : Str) : Str :=
  ((extnameOf f).map Char.toLower).drop 1

/-- The three supported audio formats (`this.supportedFormats`). -/
def supportedFormats : List Str :=
  ["wav".toList, "flac".toList, "mp3".toList]

/-! ## File-system interface and error model -/

/-- Error codes of rejected `fs/promises` operations; only `ENOENT` is ever
inspected by the scanners (`error.code === 'ENOENT'`), so all remaining
codes are collapsed into two representatives. -/
inductive FsErr where
  | enoent
  | eacces
  | otherErr
deriving DecidableEq, Repr

/-- What `stat` reports about a path: `isFile()`, `isDirectory()`, or
neither. -/
inductive FileKind where
  | file
  | dir
  | otherKind
deriving DecidableEq, Repr

/-- The `fs/promises` primitives the scanners use, as explicit functions:
the `.error` case is a rejected promise. -/
structure FsApi where
  readdir : FsPath → Except FsErr (List Str)
  statKind : FsPath → Except FsErr FileKind
  readFile : FsPath → Except FsErr Str

/-- Thrown JavaScript `Error` values, modelled opaquely: `fsFail` is a
file-system rejection used as an error, `typeErr` is a `TypeError`
(e.g. calling a method of `undefined`), and `wrap` is one
catch-and-rethrow-with-new-message layer.  The message text is not
modelled; no claim depends on it. -/
inductive JsErr where
  | fsFail (e : FsErr)
  | typeErr
  | wrap (inner : JsErr)
deriving DecidableEq, Repr

/-! ## Data model -/

/-- A track record produced by `extractTrackInfo` of either scanner:
`{ filename, path, trackNumber, title, format }`. -/
structure AudioTrack where
  filename : Str
  path : FsPath
  trackNumber : Nat
  title : Str
  format : Str
deriving DecidableEq, Repr

/-- One entry of `metadata.tracks` in `metadata.json`:
`{ title, isrc, explicit }` (`isrc` may be `null`/absent — both are
modelled as `none`). -/
structure MetaTrack where
  title : Str
  isrc : Option Str
  explicit : Bool
deriving DecidableEq, Repr

/-- A reconciled track as built by `matchTracksWithMetadata`: the audio
file's filesystem fields plus the metadata track's `title`, `isrc` and
`explicit` (or the `isrc: null, explicit: false` defaults). -/
structure ReconTrack where
  filename : Str
  path : FsPath
  trackNumber : Nat
  title : Str
  format : Str
  isrc : Option Str
  explicit : Bool
deriving DecidableEq, Repr

/-- The parsed object of a `metadata.json` file, restricted to the fields
the scanners and the validator consume.  Absent or `null` JSON fields are
`none`; `tracks: none` models a metadata object with no `tracks` array. -/
structure AlbumMetadata where
  artist : Option Str
  album : Option Str
  genre : Option Str
  releaseDate : Option Str
  upc : Option Str
  explicit : Bool
  tracks : Option (List MetaTrack)
deriving DecidableEq, Repr

/-- Scanning environment: the file-system primitives, the scanner's
`rootDir`, and the abstracted `JSON.parse`-plus-field-read of a
`metadata.json` body (`none` models a parse failure or a falsy parse). -/
structure ScanEnv where
  fs : FsApi
  rootDir : FsPath
  parseMetadataJson : Str → Option AlbumMetadata

/-- The album record returned by `MetadataScanner.scanSpecificAlbum`. -/
structure MSAlbum where
  artist : Str
  album : Str
  path : FsPath
  metadata : AlbumMetadata
  tracks : List ReconTrack
  totalTracks : Nat
deriving DecidableEq, Repr

/-- The album record returned by `FileScanner.scanSpecificAlbum`. -/
structure FSAlbum where
  artist : Str
  album : Str
  path : FsPath
  tracks : List AudioTrack
  totalTracks : Nat
deriving DecidableEq, Repr

/-- The pair of `valid` flag and `errors` list as returned by the validators. -/
structure ValidationResult where
  valid : Bool
  errors : List Str
deriving DecidableEq, Repr

/-! ## FileScanner: per-file parsing (src/utils/file-scanner.js) -/

namespace FileScanner

/-- Model of `FileScanner.isAudioFile`:
`this.supportedFormats.has(extname(filename).toLowerCase().slice(1))`. -/
def isAudioFile (filename : Str) : Bool :=
  supportedFormats.contains (extLower filename)

/-- The match of `nameWithoutExt` against FileScanner's pattern
digits, optional separator run, then a non-empty final dot-group
(`trackMatch` in `FileScanner.extractTrackInfo`), compiled by hand to a
function, including the backtracking behaviour of the greedy quantifiers
and the rule that the final group's dot matches everything except the
four line terminators (without the `m` flag its end anchor is the end of
the whole stem, so the final group is always a suffix):
* no leading digit, or a single-character stem ⇒ no match;
* stem entirely digits of length ≥ 2 ⇒ the greedy digit group gives one
  digit back, so group 1 is all but the last digit and group 2 the last
  (a digit is never a line terminator);
* otherwise group 1 is the maximal digit run; the separator run is maximal
  unless the rest is all separators, in which case it gives one character
  back so that the final group is non-empty; the final group must be free
  of line terminators — a line terminator at or after the first
  non-separator position sits inside every candidate suffix (separator
  backtracking only lengthens the suffix and a shorter digit group only
  exposes digits), so it kills the whole match.
Returns `(group 1 as parseInt, group 2)` on a match. -/
def trackPatternMatch (stem : Str) : Option (Nat × Str) :=
  let d := stem.takeWhile isDigitCh
  let t := stem.dropWhile isDigitCh
  if d.isEmpty then none
  else if t.isEmpty then
    if 2 ≤ d.length then some (digitsToNat (d.dropLast), [d.getLastD ' '])
    else none
  else
    let r := t.dropWhile isSepChar
    if r.isEmpty then
      if isLineTermCh (t.getLastD ' ') then none
      else some (digitsToNat d, [t.getLastD ' '])
    else
      if r.all (fun c => !isLineTermCh c) then some (digitsToNat d, r)
      else none

/-- Model of `FileScanner.extractTrackInfo(filename, filePath)`: on a pattern match
`trackNumber = parseInt(group 1, 10)` and `title = group 2 trimmed`,
otherwise `trackNumber = 1` and `title = nameWithoutExt` verbatim. -/
def extractTrackInfo (filename : Str) (filePath : FsPath) : AudioTrack :=
  let nameWithoutExt := stemOf filename
  match trackPatternMatch nameWithoutExt with
  | some (n, tl) =>
    { filename := filename, path := filePath, trackNumber := n
      title := trimWs tl, format := extLower filename }
  | none =>
    { filename := filename, path := filePath, trackNumber := 1
      title := nameWithoutExt, format := extLower filename }

end FileScanner

/-! ## MetadataScanner: per-file parsing (src/utils/metadata-scanner.js) -/

namespace MetadataScanner

/-- Model of `MetadataScanner.isAudioFile`: identical to FileScanner's. -/
def isAudioFile (filename : Str) : Bool :=
  supportedFormats.contains (extLower filename)

/-- The match of `nameWithoutExt` against MetadataScanner's pattern
digits, optional white space, a non-empty separator run, then a non-empty
final dot-group (`trackMatch` in `MetadataScanner.extractTrackInfo`),
compiled by hand to a function, including backtracking and the
line-terminator exclusion of the final group's dot (see the FileScanner
pattern above for that rule):
* no leading digit ⇒ no match;
* the character after the maximal digit run must be a separator (shrinking
  the digit group only exposes another digit, never a separator, so the
  digit group is always maximal);
* the separator run is maximal unless the whole rest is separators, in
  which case the final greedy group takes the last character — possible
  only when the rest has length ≥ 2 (the separator group itself must stay
  non-empty) and the last character is not a line terminator;
* a non-separator-initial final group must be free of line terminators. -/
def trackPatternMatch (stem : Str) : Option (Nat × Str) :=
  let d := stem.takeWhile isDigitCh
  let t := stem.dropWhile isDigitCh
  if d.isEmpty then none
  else
    match t with
    | [] => none
    | c :: _ =>
      if isSepChar c then
        let r := t.dropWhile isSepChar
        if r.isEmpty then
          if 2 ≤ t.length then
            if isLineTermCh (t.getLastD ' ') then none
            else some (digitsToNat d, [t.getLastD ' '])
          else none
        else
          if r.all (fun c => !isLineTermCh c) then some (digitsToNat d, r)
          else none
      else none

/-- Model of `MetadataScanner.extractTrackInfo(filename, filePath)`: same shape as
FileScanner's but using MetadataScanner's pattern. -/
def extractTrackInfo (filename : Str) (filePath : FsPath) : AudioTrack :=
  let nameWithoutExt := stemOf filename
  match trackPatternMatch nameWithoutExt with
  | some (n, tl) =>
    { filename := filename, path := filePath, trackNumber := n
      title := trimWs tl, format := extLower filename }
  | none =>
    { filename := filename, path := filePath, trackNumber := 1
      title := nameWithoutExt, format := extLower filename }

/-- Helper for the white-space collapse in `normalizeTitle`: replace every
maximal run of white space by a single `' '`.  The flag records whether the
previous character was white space (i.e. we are inside a run that has
already emitted its space). -/
def collapseWsAux (inRun : Bool) : Str → Str
  | [] => []
  | c :: cs =>
    if isWsChar c then
      if inRun then collapseWsAux true cs
      else ' ' :: collapseWsAux true cs
    else c :: collapseWsAux false cs

/-- Model of `replace(/\s+/g, ' ')`: collapse every white-space run to one space. -/
def collapseWs (s : Str) : Str :=
  collapseWsAux false s

/-- Model of `MetadataScanner.normalizeTitle(title)` for a string argument. -/
def normalizeTitle (title : Str) : Str :=
  collapseWs (trimWs (title.map Char.toLower))

end MetadataScanner

/-! ## Sorting

Both scanners sort the collected tracks with
`sort((a, b) => a.trackNumber - b.trackNumber)`; `Array.prototype.sort`
is stable, which the following insertion sort models (an element is
inserted after all earlier elements with a strictly smaller key and
before all with an equal or larger key, i.e. equal keys keep their
relative order because later elements are inserted behind earlier
ones). -/

/-- Insert a track into a list sorted ascending by `trackNumber`. -/
def insertByTrackNumber (a : AudioTrack) : List AudioTrack → List AudioTrack
  | [] => [a]
  | b :: bs =>
    if a.trackNumber ≤ b.trackNumber then a :: b :: bs
    else b :: insertByTrackNumber a bs

/-- Stable ascending sort by `trackNumber`. -/
def sortByTrackNumber : List AudioTrack → List AudioTrack
  | [] => []
  | a :: as' => insertByTrackNumber a (sortByTrackNumber as')

/-! ## FileScanner: directory walking and album scan -/

namespace FileScanner

/-- The body of the `for` loop of `FileScanner.getDirectories`: stat each
item, collect the names whose stat reports a directory, abort on the first
stat rejection. -/
def getDirsGo (fs : FsApi) (dirPath : FsPath) : List Str → Except FsErr (List Str)
  | [] => .ok []
  | item :: rest =>
    match fs.statKind (dirPath ++ [item]) with
    | .error e => .error e
    | .ok k =>
      match getDirsGo fs dirPath rest with
      | .error e => .error e
      | .ok ds => .ok (if k == FileKind.dir then item :: ds else ds)

/-- Model of `FileScanner.getDirectories(dirPath)`: list the names of the
subdirectories; the surrounding try/catch turns an `ENOENT` from anywhere
in the body into `[]` and rethrows every other error unchanged. -/
def getDirectories (fs : FsApi) (dirPath : FsPath) : Except FsErr (List Str) :=
  let body : Except FsErr (List Str) :=
    match fs.readdir dirPath with
    | .error e => .error e
    | .ok items => getDirsGo fs dirPath items
  match body with
  | .error .enoent => .ok []
  | r => r

/-- The audio-file collection loop of `FileScanner.scanSpecificAlbum`:
stat each listed name, keep regular files with a supported extension,
parse each with `extractTrackInfo`. -/
def scanFilesGo (fs : FsApi) (albumPath : FsPath) : List Str → Except FsErr (List AudioTrack)
  | [] => .ok []
  | f :: rest =>
    match fs.statKind (albumPath ++ [f]) with
    | .error e => .error e
    | .ok k =>
      match scanFilesGo fs albumPath rest with
      | .error e => .error e
      | .ok ts =>
        .ok (if k == FileKind.file && isAudioFile f then
               extractTrackInfo f (albumPath ++ [f]) :: ts
             else ts)

/-- Model of `FileScanner.scanSpecificAlbum(artist, album)`: `null` when the album
directory stat rejects (inner bare `catch`); otherwise list, filter, parse
and sort the audio files and return the album record; `readdir`/`stat`
rejections escape through the outer catch as a wrapped error. -/
def scanSpecificAlbum (env : ScanEnv) (artist album : Str) :
    Except JsErr (Option FSAlbum) :=
  let albumPath := env.rootDir ++ [artist, album]
  match env.fs.statKind albumPath with
  | .error _ => .ok none
  | .ok _ =>
    match env.fs.readdir albumPath with
    | .error e => .error (.wrap (.fsFail e))
    | .ok files =>
      match scanFilesGo env.fs albumPath files with
      | .error e => .error (.wrap (.fsFail e))
      | .ok ts =>
        let tracks := sortByTrackNumber ts
        .ok (some
          { artist := artist, album := album, path := albumPath
            tracks := tracks, totalTracks := tracks.length })

end FileScanner

/-! ## MetadataScanner: directory walking, metadata and reconciliation -/

namespace MetadataScanner

/-- Loop body of `MetadataScanner.getDirectories`; identical to
FileScanner's (the duplication mirrors the source). -/
def getDirsGo (fs : FsApi) (dirPath : FsPath) : List Str → Except FsErr (List Str)
  | [] => .ok []
  | item :: rest =>
    match fs.statKind (dirPath ++ [item]) with
    | .error e => .error e
    | .ok k =>
      match getDirsGo fs dirPath rest with
      | .error e => .error e
      | .ok ds => .ok (if k == FileKind.dir then item :: ds else ds)

/-- Model of `MetadataScanner.getDirectories(dirPath)`; identical to FileScanner's
(the duplication mirrors the source). -/
def getDirectories (fs : FsApi) (dirPath : FsPath) : Except FsErr (List Str) :=
  let body : Except FsErr (List Str) :=
    match fs.readdir dirPath with
    | .error e => .error e
    | .ok items => getDirsGo fs dirPath items
  match body with
  | .error .enoent => .ok []
  | r => r

/-- Model of `MetadataScanner.loadMetadata(albumPath)`: read
`albumPath/metadata.json` and parse it; `ENOENT` gives `null` silently,
any other read rejection and any parse failure give `null` with a logged
warning (the catch distinguishes them only for logging). -/
def loadMetadata (env : ScanEnv) (albumPath : FsPath) : Option AlbumMetadata :=
  match env.fs.readFile (albumPath ++ ["metadata.json".toList]) with
  | .error _ => none
  | .ok content => env.parseMetadataJson content

/-- Audio-file collection loop of `MetadataScanner.scanAudioFiles`;
same shape as FileScanner's but with MetadataScanner's
`extractTrackInfo`. -/
def scanFilesGo (fs : FsApi) (albumPath : FsPath) : List Str → Except FsErr (List AudioTrack)
  | [] => .ok []
  | f :: rest =>
    match fs.statKind (albumPath ++ [f]) with
    | .error e => .error e
    | .ok k =>
      match scanFilesGo fs albumPath rest with
      | .error e => .error e
      | .ok ts =>
        .ok (if k == FileKind.file && isAudioFile f then
               extractTrackInfo f (albumPath ++ [f]) :: ts
             else ts)

/-- Model of `MetadataScanner.scanAudioFiles(albumPath)`: list, stat, filter, parse
and sort; any file-system rejection is rethrown wrapped in a new
`Error`. -/
def scanAudioFiles (fs : FsApi) (albumPath : FsPath) :
    Except JsErr (List AudioTrack) :=
  match fs.readdir albumPath with
  | .error e => .error (.wrap (.fsFail e))
  | .ok files =>
    match scanFilesGo fs albumPath files with
    | .error e => .error (.wrap (.fsFail e))
    | .ok ts => .ok (sortByTrackNumber ts)

/-- The merged object
`{...audioFile, ...metadataTrack, filename, path, format, trackNumber}`
of `matchTracksWithMetadata`: the spread of the metadata track overrides
`title`, `isrc` and `explicit`; the four filesystem fields are re-imposed
from the audio file. -/
def mergeTrack (af : AudioTrack) (mt : MetaTrack) : ReconTrack :=
  { filename := af.filename, path := af.path
    trackNumber := af.trackNumber, title := mt.title
    format := af.format, isrc := mt.isrc, explicit := mt.explicit }

/-- The `{...audioFile, isrc: null, explicit: false}` object used when no
metadata track matches. -/
def unmatchedTrack (af : AudioTrack) : ReconTrack :=
  { filename := af.filename, path := af.path
    trackNumber := af.trackNumber, title := af.title
    format := af.format, isrc := none, explicit := false }

/-- Model of `MetadataScanner.matchTracksWithMetadata(audioFiles, metadataTracks)`:
for each audio file in order, `metadataTracks.find(...)` the first
metadata track with equal normalised title and merge it; without a match
keep the audio file with the `isrc: null, explicit: false` defaults. -/
def matchTracksWithMetadata (audioFiles : List AudioTrack)
    (metadataTracks : List MetaTrack) : List ReconTrack :=
  audioFiles.map fun af =>
    match metadataTracks.find?
        (fun mt => normalizeTitle mt.title == normalizeTitle af.title) with
    | some mt => mergeTrack af mt
    | none => unmatchedTrack af

/-- Model of `MetadataScanner.scanSpecificAlbum(artist, album)`: `null` when the
album-directory stat rejects (inner bare `catch`) and when
`loadMetadata` yields `null` (missing or unparsable `metadata.json`, with
a logged warning); a failing audio scan rethrows wrapped; a metadata
object without a `tracks` array makes `metadataTracks.find` throw a
`TypeError`, which the outer catch wraps. -/
def scanSpecificAlbum (env : ScanEnv) (artist album : Str) :
    Except JsErr (Option MSAlbum) :=
  let albumPath := env.rootDir ++ [artist, album]
  match env.fs.statKind albumPath with
  | .error _ => .ok none
  | .ok _ =>
    match loadMetadata env albumPath with
    | none => .ok none
    | some md =>
      match scanAudioFiles env.fs albumPath with
      | .error e => .error (.wrap e)
      | .ok audioFiles =>
        match md.tracks with
        | none => .error (.wrap .typeErr)
        | some mts =>
          let tracks := matchTracksWithMetadata audioFiles mts
          .ok (some
            { artist := artist, album := album, path := albumPath
              metadata := md, tracks := tracks
              totalTracks := tracks.length })

end MetadataScanner

/-! ## MetadataScanner: validation -/

/-- The argument shape `validateAlbumData` actually inspects: an object
with optional `metadata` and `tracks` properties (JavaScript duck typing;
`scanSpecificAlbum` results always carry both, but the validator accepts
anything). -/
structure AlbumDataLike where
  metadata : Option AlbumMetadata
  tracks : Option (List ReconTrack)
deriving DecidableEq, Repr

namespace MetadataScanner

/-- The literal `'Album data is required'`. -/
def msgAlbumDataRequired : Str := "Album data is required".toList

/-- The literal `'Metadata is required'`. -/
def msgMetadataRequired : Str := "Metadata is required".toList

/-- The literal `'Artist name is required in metadata'`. -/
def msgArtistRequired : Str := "Artist name is required in metadata".toList

/-- The literal `'Album title is required in metadata'`. -/
def msgAlbumTitleRequired : Str := "Album title is required in metadata".toList

/-- The literal `'At least one track is required in metadata'`. -/
def msgTracksRequired : Str := "At least one track is required in metadata".toList

/-- The track-count mismatch message with both counts interpolated. -/
def msgTrackCountMismatch (metadataCount audioCount : Nat) : Str :=
  "Track count mismatch: metadata has ".toList ++ natToStr metadataCount ++
    " tracks, found ".toList ++ natToStr audioCount ++ " audio files".toList

/-- The literal `'UPC must be 12 digits'`. -/
def msgUpc : Str := "UPC must be 12 digits".toList

/-- The per-track ISRC message naming the 1-based track index and its
title. -/
def msgIsrc (index : Nat) (title : Str) : Str :=
  "Track ".toList ++ natToStr (index + 1) ++ " (".toList ++ title ++
    "): Invalid ISRC format".toList

/-- The UPC pattern `^\d{12}$`. -/
def upcOk (u : Str) : Bool :=
  u.length == 12 && u.all isDigitCh

/-- The ISRC pattern `^[A-Z]{2}[A-Z0-9]{3}\d{7}$`. -/
def isrcOk (s : Str) : Bool :=
  s.length == 12 && (s.take 2).all isUpperCh &&
    ((s.drop 2).take 3).all isUpperDigitCh && (s.drop 5).all isDigitCh

/-- The check `!metadata.artist || metadata.artist.trim() === ''`
(an absent field and the falsy empty string both fail the first test). -/
def strBlank : Option Str → Bool
  | none => true
  | some s => s.isEmpty || (trimWs s).isEmpty

/-- Whether a metadata track triggers the ISRC error:
`track.isrc && !pattern.test(track.isrc)` (an absent, `null` or empty
`isrc` is falsy and skips the test). -/
def isrcBad (mt : MetaTrack) : Bool :=
  match mt.isrc with
  | none => false
  | some s => !s.isEmpty && !isrcOk s

/-- The ISRC errors collected by the `forEach` over `metadata.tracks`. -/
def isrcErrs (mts : List MetaTrack) : List Str :=
  mts.enum.filterMap fun p =>
    if isrcBad p.2 then some (msgIsrc p.1 p.2.title) else none

/-- Model of `MetadataScanner.validateAlbumData(albumData)`: early return for a missing
record or missing `metadata`; otherwise accumulate the artist, album,
non-empty-tracks, track-count, UPC and per-track ISRC errors and report
`valid` iff none accumulated. -/
def validateAlbumData (albumData : Option AlbumDataLike) : ValidationResult :=
  match albumData with
  | none => { valid := false, errors := [msgAlbumDataRequired] }
  | some ad =>
    match ad.metadata with
    | none => { valid := false, errors := [msgMetadataRequired] }
    | some md =>
      let e1 := if strBlank md.artist then [msgArtistRequired] else []
      let e2 := if strBlank md.album then [msgAlbumTitleRequired] else []
      let e3 :=
        match md.tracks with
        | none => [msgTracksRequired]
        | some mts => if mts.isEmpty then [msgTracksRequired] else []
      let e4 :=
        match ad.tracks, md.tracks with
        | some ats, some mts =>
          if ats.length ≠ mts.length then
            [msgTrackCountMismatch mts.length ats.length]
          else []
        | _, _ => []
      let e5 :=
        match md.upc with
        | none => []
        | some u => if !u.isEmpty && !upcOk u then [msgUpc] else []
      let e6 :=
        match md.tracks with
        | none => []
        | some mts => isrcErrs mts
      let errors := e1 ++ e2 ++ e3 ++ e4 ++ e5 ++ e6
      { valid := errors.isEmpty, errors := errors }

/-- Modelled from the spec: `MetadataScanner.hasMetadataFile` is called by
`Publisher.detectPlatform` but is absent from the MetadataScanner source;
per the spec the detection rule is "does the directory (or, per current
behavior, the top of the scan target) contain a `metadata.json`?", and
"failure to even stat the directory propagates as an error".  Presence is
a successful stat of `directoryPath/metadata.json`, `ENOENT` is absence,
and any other stat failure propagates. -/
def hasMetadataFile (fs : FsApi) (directoryPath : FsPath) :
    Except FsErr Bool :=
  match fs.statKind (directoryPath ++ ["metadata.json".toList]) with
  | .ok _ => .ok true
  | .error .enoent => .ok false
  | .error e => .error e

end MetadataScanner

/-! ## Publisher: platform detection (src/services/publisher.js) -/

/-- The two platform names `'fuga'` and `'tunecore'`. -/
inductive Platform where
  | fuga
  | tunecore
deriving DecidableEq, Repr

namespace Publisher

/-- Model of `Publisher.detectPlatform(directoryPath)`:
`tunecore` when the scanner reports a `metadata.json`, `fuga` otherwise;
a failing check is caught and rethrown wrapped (never a default
platform). -/
def detectPlatform (fs : FsApi) (directoryPath : FsPath) :
    Except JsErr Platform :=
  match MetadataScanner.hasMetadataFile fs directoryPath with
  | .ok true => .ok Platform.tunecore
  | .ok false => .ok Platform.fuga
  | .error e => .error (.wrap (.fsFail e))

end Publisher

/-! ## Specification-side characterisation of title matching

The claim about `normalizeTitle`-based matching is that two titles match
exactly when they differ only by letter case and/or by runs of white
space (including leading and trailing white space).  That relation is
captured independently of the code by comparing the sequences of maximal
non-white-space words after lower-casing. -/

/-- Fuel-indexed word splitter (structural recursion so that concrete
instances reduce in the kernel); `fuel` must exceed the string length. -/
def wordsOfAux (fuel : Nat) (s : Str) : List Str :=
  match fuel with
  | 0 => []
  | f + 1 =>
    match s.dropWhile isWsChar with
    | [] => []
    | c :: cs =>
      (c :: cs.takeWhile (fun d => !isWsChar d)) ::
        wordsOfAux f (cs.dropWhile (fun d => !isWsChar d))

/-- The maximal non-white-space words of a string, in order. -/
def wordsOf (s : Str) : List Str :=
  wordsOfAux (s.length + 1) s

/-- The words of a title after ASCII lower-casing: the invariant of a
title under changes of letter case and of white-space runs. -/
def wordsLower (s : Str) : List Str :=
  wordsOf (s.map Char.toLower)

/-- Join words with single spaces (`intercalate " "`). -/
def spaceJoin : List Str → Str
  | [] => []
  | [w] => w
  | w :: ws => w ++ ' ' :: spaceJoin ws

/-! ## Concrete inputs used by witnesses and counterexamples -/

/-- A file system whose every stat succeeds (in particular any
`metadata.json` is "present"). -/
def fsMetaPresent : FsApi :=
  ⟨fun _ => .ok [], fun _ => .ok FileKind.file, fun _ => .error .enoent⟩

/-- A file system where every operation rejects with `ENOENT`. -/
def fsAllEnoent : FsApi :=
  ⟨fun _ => .error .enoent, fun _ => .error .enoent, fun _ => .error .enoent⟩

/-- A file system where every operation rejects with `EACCES`. -/
def fsAllEacces : FsApi :=
  ⟨fun _ => .error .eacces, fun _ => .error .eacces, fun _ => .error .eacces⟩

/-- The path `music/Artist1/Album1`. -/
def demoAlbumPath : FsPath := ["music".toList, "Artist1".toList, "Album1".toList]

/-- An audio file name following the naming convention. -/
def demoTrackFile : Str := "01 - Track One.wav".toList

/-- A metadata track whose title matches the audio file up to case and
white space. -/
def demoMetaTrack : MetaTrack :=
  ⟨"Track One".toList, some "USXXX2500001".toList, false⟩

/-- A well-formed parsed `metadata.json`. -/
def demoMetadata : AlbumMetadata :=
  { artist := some "Artist1".toList, album := some "Album1".toList
    genre := none, releaseDate := none
    upc := some "123456789012".toList, explicit := false
    tracks := some [demoMetaTrack] }

/-- A one-artist, one-album file system: the album directory holds one
audio file and one `metadata.json` that parses to `demoMetadata`. -/
def demoEnv : ScanEnv :=
  { fs :=
      { readdir := fun p =>
          if p = demoAlbumPath then
            .ok [demoTrackFile, "metadata.json".toList]
          else .error .enoent
        statKind := fun p =>
          if p = demoAlbumPath then .ok FileKind.dir
          else if p = demoAlbumPath ++ [demoTrackFile] then .ok FileKind.file
          else if p = demoAlbumPath ++ ["metadata.json".toList] then
            .ok FileKind.file
          else .error .enoent
        readFile := fun p =>
          if p = demoAlbumPath ++ ["metadata.json".toList] then
            .ok "demo-metadata-json".toList
          else .error .enoent }
    rootDir := ["music".toList]
    parseMetadataJson := fun c =>
      if c = "demo-metadata-json".toList then some demoMetadata else none }

/-- The album record `FileScanner.scanSpecificAlbum` produces on
`demoEnv`. -/
def demoFSAlbum : FSAlbum :=
  { artist := "Artist1".toList, album := "Album1".toList
    path := demoAlbumPath
    tracks := [⟨demoTrackFile, demoAlbumPath ++ [demoTrackFile], 1,
                "Track One".toList, "wav".toList⟩]
    totalTracks := 1 }

/-- The album record `MetadataScanner.scanSpecificAlbum` produces on
`demoEnv`. -/
def demoMSAlbum : MSAlbum :=
  { artist := "Artist1".toList, album := "Album1".toList
    path := demoAlbumPath
    metadata := demoMetadata
    tracks := [⟨demoTrackFile, demoAlbumPath ++ [demoTrackFile], 1,
                "Track One".toList, "wav".toList,
                some "USXXX2500001".toList, false⟩]
    totalTracks := 1 }

/-- An environment where `music/A/B` exists but has no `metadata.json`
(every read rejects with `ENOENT`). -/
def c2Env : ScanEnv :=
  { fs :=
      { readdir := fun _ => .ok []
        statKind := fun p =>
          if p = ["music".toList, "A".toList, "B".toList] then .ok FileKind.dir
          else .error .enoent
        readFile := fun _ => .error .enoent }
    rootDir := ["music".toList]
    parseMetadataJson := fun _ => none }

/-- An audio track for reconciliation tests. -/
def c3Audio : AudioTrack :=
  ⟨"01 - Song.wav".toList, [], 1, "Song".toList, "wav".toList⟩

/-- First metadata track, matching `c3Audio` up to case. -/
def c3Meta1 : MetaTrack := ⟨"SONG".toList, some "USABC1200001".toList, true⟩

/-- Second metadata track, also matching `c3Audio` (duplicate title). -/
def c3Meta2 : MetaTrack := ⟨"song".toList, none, false⟩

/-- Metadata declaring two tracks. -/
def c7Meta : AlbumMetadata :=
  { artist := some "A".toList, album := some "B".toList
    genre := none, releaseDate := none, upc := none, explicit := false
    tracks := some [⟨"T1".toList, none, false⟩, ⟨"T2".toList, none, false⟩] }

/-- An album record with the two-track metadata but a single scanned
audio file. -/
def c7Album : AlbumDataLike :=
  ⟨some c7Meta, some [⟨"f.wav".toList, [], 1, "T1".toList, "wav".toList,
                      none, false⟩]⟩

/-- Metadata whose `upc` is the empty string: present yet falsy, so the
validator never tests it against the pattern. -/
def c8EmptyUpcMeta : AlbumMetadata :=
  { artist := some "A".toList, album := some "B".toList
    genre := none, releaseDate := none, upc := some [], explicit := false
    tracks := some [⟨"T".toList, some [], false⟩] }

/-- Metadata with the claim's concrete bad UPC `"12345"`, a bad ISRC
`"INVALID"` on track 1 and a good ISRC on track 2. -/
def c8BadMeta : AlbumMetadata :=
  { artist := some "A".toList, album := some "B".toList
    genre := none, releaseDate := none
    upc := some "12345".toList, explicit := false
    tracks := some [⟨"T".toList, some "INVALID".toList, false⟩,
                    ⟨"U".toList, some "USXXX2500001".toList, false⟩] }


/-! # Claim theorems -/

/-- C1: for every directory path, `Publisher.detectPlatform` returns
`'tunecore'` when the scan target contains a `metadata.json` (its stat
succeeds), `'fuga'` when it does not (the stat rejects with `ENOENT`),
never yields a third value, and on any other failure propagates an error
rather than silently defaulting.  The missing
`MetadataScanner.hasMetadataFile` is modelled from the spec. -/
theorem detectPlatform_metadata_json_rule
    (fs : FsApi) (p : FsPath) :
    (∀ k, fs.statKind (p ++ ["metadata.json".toList]) = .ok k →
      Publisher.detectPlatform fs p = .ok Platform.tunecore) ∧
    (fs.statKind (p ++ ["metadata.json".toList]) = .error .enoent →
      Publisher.detectPlatform fs p = .ok Platform.fuga) ∧
    (∀ e, e ≠ FsErr.enoent →
      fs.statKind (p ++ ["metadata.json".toList]) = .error e →
      Publisher.detectPlatform fs p = .error (.wrap (.fsFail e))) ∧
    (∀ pl, Publisher.detectPlatform fs p = .ok pl →
      pl = Platform.tunecore ∨ pl = Platform.fuga) := by
  refine ⟨?_, ?_, ?_, ?_⟩
  · intro k h
    unfold Publisher.detectPlatform MetadataScanner.hasMetadataFile
    rw [h]
  · intro h
    unfold Publisher.detectPlatform MetadataScanner.hasMetadataFile
    rw [h]
  · intro e he h
    cases e with
    | enoent => exact absurd rfl he
    | eacces =>
      unfold Publisher.detectPlatform MetadataScanner.hasMetadataFile
      rw [h]
    | otherErr =>
      unfold Publisher.detectPlatform MetadataScanner.hasMetadataFile
      rw [h]
  · intro pl _
    cases pl
    · exact Or.inr rfl
    · exact Or.inl rfl

/-- Witness for C1: the three behaviours at concrete file systems. -/
theorem detectPlatform_metadata_json_rule_witness :
    Publisher.detectPlatform fsMetaPresent [] = .ok Platform.tunecore ∧
    Publisher.detectPlatform fsAllEnoent [] = .ok Platform.fuga ∧
    Publisher.detectPlatform fsAllEacces [] =
      .error (.wrap (.fsFail .eacces)) := by
  refine ⟨?_, ?_, ?_⟩
  · exact (detectPlatform_metadata_json_rule fsMetaPresent []).1 .file rfl
  · exact (detectPlatform_metadata_json_rule fsAllEnoent []).2.1 rfl
  · exact (detectPlatform_metadata_json_rule fsAllEacces []).2.2.1 .eacces
      (by decide) rfl

/-- C9: `getDirectories` of both scanners returns `[]` without throwing
when the listing rejects with `ENOENT`, and propagates any other listing
error to the caller unchanged. -/
theorem getDirectories_enoent_empty_other_propagates
    (fs : FsApi) (p : FsPath) :
    (fs.readdir p = .error .enoent →
      FileScanner.getDirectories fs p = .ok [] ∧
      MetadataScanner.getDirectories fs p = .ok []) ∧
    (∀ e, e ≠ FsErr.enoent → fs.readdir p = .error e →
      FileScanner.getDirectories fs p = .error e ∧
      MetadataScanner.getDirectories fs p = .error e) := by
  constructor
  · intro h
    constructor
    · simp [FileScanner.getDirectories, h]
    · simp [MetadataScanner.getDirectories, h]
  · intro e he h
    cases e with
    | enoent => exact absurd rfl he
    | eacces =>
      exact ⟨by simp [FileScanner.getDirectories, h],
             by simp [MetadataScanner.getDirectories, h]⟩
    | otherErr =>
      exact ⟨by simp [FileScanner.getDirectories, h],
             by simp [MetadataScanner.getDirectories, h]⟩

/-- Witness for C9: a missing path gives `[]`, a permission failure
propagates, for both scanners. -/
theorem getDirectories_enoent_empty_other_propagates_witness :
    (FileScanner.getDirectories fsAllEnoent [] = .ok [] ∧
     MetadataScanner.getDirectories fsAllEnoent [] = .ok []) ∧
    (FileScanner.getDirectories fsAllEacces [] = .error .eacces ∧
     MetadataScanner.getDirectories fsAllEacces [] = .error .eacces) :=
  ⟨(getDirectories_enoent_empty_other_propagates fsAllEnoent []).1 rfl,
   (getDirectories_enoent_empty_other_propagates fsAllEacces []).2 .eacces
     (by decide) rfl⟩

/-- C10: every non-`null` album record of either scanner's
`scanSpecificAlbum` satisfies `totalTracks = tracks.length` (for the
MetadataScanner this counts the reconciled scanned audio files, however
many tracks the metadata declares). -/
theorem scanSpecificAlbum_totalTracks_invariant
    (env : ScanEnv) (artist album : Str) :
    (∀ a : FSAlbum, FileScanner.scanSpecificAlbum env artist album =
      .ok (some a) → a.totalTracks = a.tracks.length) ∧
    (∀ a : MSAlbum, MetadataScanner.scanSpecificAlbum env artist album =
      .ok (some a) → a.totalTracks = a.tracks.length) := by
  constructor
  · intro a h
    unfold FileScanner.scanSpecificAlbum at h
    dsimp only at h
    cases hs : env.fs.statKind (env.rootDir ++ [artist, album]) with
    | error e => rw [hs] at h; simp at h
    | ok k =>
      rw [hs] at h
      dsimp only at h
      cases hr : env.fs.readdir (env.rootDir ++ [artist, album]) with
      | error e => rw [hr] at h; simp at h
      | ok files =>
        rw [hr] at h
        dsimp only at h
        cases hg : FileScanner.scanFilesGo env.fs
            (env.rootDir ++ [artist, album]) files with
        | error e => rw [hg] at h; simp at h
        | ok ts =>
          rw [hg] at h
          dsimp only at h
          simp only [Except.ok.injEq, Option.some.injEq] at h
          rw [← h]
  · intro a h
    unfold MetadataScanner.scanSpecificAlbum at h
    dsimp only at h
    cases hs : env.fs.statKind (env.rootDir ++ [artist, album]) with
    | error e => rw [hs] at h; simp at h
    | ok k =>
      rw [hs] at h
      dsimp only at h
      cases hm : MetadataScanner.loadMetadata env
          (env.rootDir ++ [artist, album]) with
      | none => rw [hm] at h; simp at h
      | some md =>
        rw [hm] at h
        dsimp only at h
        cases ha : MetadataScanner.scanAudioFiles env.fs
            (env.rootDir ++ [artist, album]) with
        | error e => rw [ha] at h; simp at h
        | ok audioFiles =>
          rw [ha] at h
          dsimp only at h
          cases ht : md.tracks with
          | none => rw [ht] at h; simp at h
          | some mts =>
            rw [ht] at h
            dsimp only at h
            simp only [Except.ok.injEq, Option.some.injEq] at h
            rw [← h]
/-- Witness for C10: on the concrete demo environment both scans succeed
and the invariant holds for the returned records. -/
theorem scanSpecificAlbum_totalTracks_invariant_witness :
    FileScanner.scanSpecificAlbum demoEnv "Artist1".toList "Album1".toList =
      .ok (some demoFSAlbum) ∧
    demoFSAlbum.totalTracks = demoFSAlbum.tracks.length ∧
    MetadataScanner.scanSpecificAlbum demoEnv "Artist1".toList
      "Album1".toList = .ok (some demoMSAlbum) ∧
    demoMSAlbum.totalTracks = demoMSAlbum.tracks.length :=
  ⟨by rfl,
   (scanSpecificAlbum_totalTracks_invariant demoEnv "Artist1".toList
     "Album1".toList).1 demoFSAlbum (by rfl),
   by rfl,
   (scanSpecificAlbum_totalTracks_invariant demoEnv "Artist1".toList
     "Album1".toList).2 demoMSAlbum (by rfl)⟩

/-- C2 (amended): `MetadataScanner.scanSpecificAlbum` returns `null`
exactly when the album-directory stat fails (directory absent) or when
`loadMetadata` yields `null` (missing or unparsable `metadata.json`);
metadata-less albums are thus excluded by the single-album scan itself,
not only by the whole-directory scan. -/
theorem scanSpecificAlbum_null_iff (env : ScanEnv) (artist album : Str) :
    MetadataScanner.scanSpecificAlbum env artist album = .ok none ↔
      ((∃ e, env.fs.statKind (env.rootDir ++ [artist, album]) = .error e) ∨
       ((∃ k, env.fs.statKind (env.rootDir ++ [artist, album]) = .ok k) ∧
        MetadataScanner.loadMetadata env (env.rootDir ++ [artist, album]) =
          none)) := by
  unfold MetadataScanner.scanSpecificAlbum
  dsimp only
  cases hs : env.fs.statKind (env.rootDir ++ [artist, album]) with
  | error e => simp [hs]
  | ok k =>
    dsimp only
    cases hm : MetadataScanner.loadMetadata env
        (env.rootDir ++ [artist, album]) with
    | none => simp [hs, hm]
    | some md =>
      dsimp only
      cases ha : MetadataScanner.scanAudioFiles env.fs
          (env.rootDir ++ [artist, album]) with
      | error e => simp [hs, hm, ha]
      | ok audioFiles =>
        cases ht : md.tracks with
        | none => simp [hs, hm, ha, ht]
        | some mts => simp [hs, hm, ha, ht]

/-- Counterexample for C2: in `c2Env` the album directory `music/A/B`
exists (its stat succeeds) and `metadata.json` is missing (the read
rejects with `ENOENT`), yet the single-album scan returns `null`,
contradicting the claim that it does not. -/
theorem scanSpecificAlbum_null_on_missing_metadata :
    c2Env.fs.statKind ["music".toList, "A".toList, "B".toList] =
      .ok FileKind.dir ∧
    c2Env.fs.readFile (["music".toList, "A".toList, "B".toList] ++
      ["metadata.json".toList]) = .error .enoent ∧
    MetadataScanner.scanSpecificAlbum c2Env "A".toList "B".toList =
      .ok none := by
  refine ⟨by rfl, by rfl, by rfl⟩

/-- Helper: `validateAlbumData` always reports `valid` iff it accumulated
no error (including the early-return branches). -/
theorem validateAlbumData_valid_eq_isEmpty (x : Option AlbumDataLike) :
    (MetadataScanner.validateAlbumData x).valid =
      (MetadataScanner.validateAlbumData x).errors.isEmpty := by
  cases x with
  | none => rfl
  | some ad =>
    cases hm : ad.metadata with
    | none => simp only [MetadataScanner.validateAlbumData, hm]; rfl
    | some md => simp only [MetadataScanner.validateAlbumData, hm]

/-- C7: for every album record whose metadata lists 2 tracks while 1
audio-file track was scanned, `validateAlbumData` is invalid and its
errors contain a string mentioning both counts. -/
theorem validateAlbumData_count_mismatch
    (ad : AlbumDataLike) (md : AlbumMetadata)
    (mts : List MetaTrack) (ats : List ReconTrack)
    (hmd : ad.metadata = some md) (hmts : md.tracks = some mts)
    (h2 : mts.length = 2) (hats : ad.tracks = some ats)
    (h1 : ats.length = 1) :
    (MetadataScanner.validateAlbumData (some ad)).valid = false ∧
    ∃ e ∈ (MetadataScanner.validateAlbumData (some ad)).errors,
      ['2'] <:+: e ∧ ['1'] <:+: e := by
  have hmem : MetadataScanner.msgTrackCountMismatch 2 1 ∈
      (MetadataScanner.validateAlbumData (some ad)).errors := by
    simp only [MetadataScanner.validateAlbumData, hmd, hats, hmts, h2, h1]
    simp
  constructor
  · have hne : (MetadataScanner.validateAlbumData (some ad)).errors ≠ [] :=
      List.ne_nil_of_mem hmem
    rw [validateAlbumData_valid_eq_isEmpty]
    simpa [List.isEmpty_iff] using hne
  · exact ⟨MetadataScanner.msgTrackCountMismatch 2 1, hmem,
      by decide, by decide⟩

/-- Witness for C7: the concrete two-track metadata against one scanned
audio file. -/
theorem validateAlbumData_count_mismatch_witness :
    (MetadataScanner.validateAlbumData (some c7Album)).valid = false ∧
    ∃ e ∈ (MetadataScanner.validateAlbumData (some c7Album)).errors,
      ['2'] <:+: e ∧ ['1'] <:+: e :=
  validateAlbumData_count_mismatch c7Album c7Meta _ _ rfl rfl rfl rfl rfl

/-! ## Helper lemmas: decimal rendering -/

/-- The printer ignores how much fuel it gets as long as it is enough. -/
theorem natToStrAux_fuel_irrel :
    ∀ f1 f2 n, n < f1 → n < f2 → natToStrAux f1 n = natToStrAux f2 n := by
  intro f1
  induction f1 with
  | zero => intro f2 n h1 _; exact absurd h1 (Nat.not_lt_zero n)
  | succ g ih =>
    intro f2 n h1 h2
    cases f2 with
    | zero => exact absurd h2 (Nat.not_lt_zero n)
    | succ g2 =>
      show (if n < 10 then [digitCh n]
            else natToStrAux g (n / 10) ++ [digitCh (n % 10)]) =
           (if n < 10 then [digitCh n]
            else natToStrAux g2 (n / 10) ++ [digitCh (n % 10)])
      by_cases hn : n < 10
      · simp [hn]
      · have hpos : 0 < n := by omega
        have hdiv : n / 10 < n := Nat.div_lt_self hpos (by omega)
        have hg : n / 10 < g := by omega
        have hg2 : n / 10 < g2 := by omega
        simp [hn, ih g2 (n / 10) hg hg2]

/-- Unfolding for small numbers. -/
theorem natToStr_lt_ten {n : Nat} (h : n < 10) : natToStr n = [digitCh n] := by
  unfold natToStr natToStrAux
  simp [h]

/-- Unfolding for larger numbers. -/
theorem natToStr_ge_ten {n : Nat} (h : 10 ≤ n) :
    natToStr n = natToStr (n / 10) ++ [digitCh (n % 10)] := by
  have hpos : 0 < n := by omega
  have hdiv : n / 10 < n := Nat.div_lt_self hpos (by omega)
  show natToStrAux (n + 1) n = natToStrAux (n / 10 + 1) (n / 10) ++ _
  rw [show natToStrAux (n + 1) n =
      if n < 10 then [digitCh n]
      else natToStrAux n (n / 10) ++ [digitCh (n % 10)] from rfl]
  rw [if_neg (by omega)]
  rw [natToStrAux_fuel_irrel n (n / 10 + 1) (n / 10) hdiv (Nat.lt_succ_self _)]

/-- The digit characters read back as their values. -/
theorem digitCh_toNat {d : Nat} (h : d < 10) : (digitCh d).toNat = 48 + d := by
  interval_cases d <;> decide

/-- The digit characters are in the `\d` class. -/
theorem isDigitCh_digitCh {d : Nat} (h : d < 10) :
    isDigitCh (digitCh d) = true := by
  interval_cases d <;> decide

/-- The `parseInt` model inverts the decimal printer. -/
theorem digitsToNat_natToStr : ∀ n, digitsToNat (natToStr n) = n := by
  intro n
  induction n using Nat.strong_induction_on with
  | _ n ih =>
    by_cases h : n < 10
    · rw [natToStr_lt_ten h]
      show 10 * 0 + ((digitCh n).toNat - 48) = n
      rw [digitCh_toNat h]
      omega
    · have h10 : 10 ≤ n := by omega
      rw [natToStr_ge_ten h10]
      unfold digitsToNat
      rw [List.foldl_append]
      have hdiv : n / 10 < n := Nat.div_lt_self (by omega) (by omega)
      have := ih (n / 10) hdiv
      unfold digitsToNat at this
      rw [this]
      show 10 * (n / 10) + ((digitCh (n % 10)).toNat - 48) = n
      rw [digitCh_toNat (Nat.mod_lt n (by omega))]
      omega

/-- The decimal rendering is injective. -/
theorem natToStr_inj {m n : Nat} (h : natToStr m = natToStr n) : m = n := by
  rw [← digitsToNat_natToStr m, ← digitsToNat_natToStr n, h]

/-- A decimal rendering is never empty. -/
theorem natToStr_ne_nil (n : Nat) : natToStr n ≠ [] := by
  by_cases h : n < 10
  · rw [natToStr_lt_ten h]; simp
  · rw [natToStr_ge_ten (by omega)]; simp

/-- Every character of a decimal rendering is a digit. -/
theorem natToStr_all_digits : ∀ n, (natToStr n).all isDigitCh = true := by
  intro n
  induction n using Nat.strong_induction_on with
  | _ n ih =>
    by_cases h : n < 10
    · rw [natToStr_lt_ten h]
      simp [isDigitCh_digitCh h]
    · rw [natToStr_ge_ten (by omega)]
      rw [List.all_append]
      have hdiv : n / 10 < n := Nat.div_lt_self (by omega) (by omega)
      rw [ih (n / 10) hdiv]
      simp [isDigitCh_digitCh (Nat.mod_lt n (by omega))]

/-! ## Helper lemmas: message disambiguation -/

/-- Splitting a concatenation at the boundary between an all-digit run and
a non-digit continuation is unambiguous. -/
theorem digit_run_append_inj
    {a1 a2 b1 b2 : Str}
    (ha1 : a1.all isDigitCh = true) (ha2 : a2.all isDigitCh = true)
    (hb1 : ∀ c, b1.head? = some c → isDigitCh c = false)
    (hb2 : ∀ c, b2.head? = some c → isDigitCh c = false)
    (h : a1 ++ b1 = a2 ++ b2) : a1 = a2 ∧ b1 = b2 := by
  have tw : ∀ (a b : Str), a.all isDigitCh = true →
      (∀ c, b.head? = some c → isDigitCh c = false) →
      (a ++ b).takeWhile isDigitCh = a := by
    intro a b ha hb
    rw [List.takeWhile_append_of_pos (by simpa [List.all_eq_true] using ha)]
    cases b with
    | nil => simp
    | cons c cs =>
      rw [List.takeWhile_cons_of_neg]
      · simp
      · simp [hb c rfl]
  have h1 : a1 = a2 := by
    have e1 := tw a1 b1 ha1 hb1
    have e2 := tw a2 b2 ha2 hb2
    rw [← e1, ← e2, h]
  refine ⟨h1, ?_⟩
  rw [h1] at h
  exact List.append_cancel_left h

/-- The per-track ISRC message determines the track index and title. -/
theorem msgIsrc_inj {i j : Nat} {t1 t2 : Str}
    (h : MetadataScanner.msgIsrc i t1 = MetadataScanner.msgIsrc j t2) :
    i = j ∧ t1 = t2 := by
  unfold MetadataScanner.msgIsrc at h
  simp only [List.append_assoc] at h
  have h1 := List.append_cancel_left h
  have hhead : ∀ t : Str, ∀ c : Char,
      (" (".toList ++ (t ++ "): Invalid ISRC format".toList)).head? =
        some c → isDigitCh c = false := by
    intro t c hc
    have h0 : ((" (".toList ++ (t ++ "): Invalid ISRC format".toList)).head?
        : Option Char) = some ' ' := rfl
    rw [h0] at hc
    cases hc
    decide
  have h2 := digit_run_append_inj (natToStr_all_digits (i + 1))
    (natToStr_all_digits (j + 1)) (hhead t1) (hhead t2) h1
  have hij : i = j := by
    have := natToStr_inj h2.1
    omega
  have ht : t1 = t2 := by
    have h3 := List.append_cancel_left h2.2
    exact List.append_cancel_right h3
  exact ⟨hij, ht⟩

/-- The UPC message differs from every track-count message. -/
theorem msgUpc_ne_msgTrackCountMismatch (m n : Nat) :
    MetadataScanner.msgUpc ≠ MetadataScanner.msgTrackCountMismatch m n := by
  intro h
  have h2 := congrArg List.head? h
  have e1 : (MetadataScanner.msgUpc).head? = some 'U' := rfl
  have e2 : (MetadataScanner.msgTrackCountMismatch m n).head? = some 'T' :=
    rfl
  rw [e1, e2] at h2
  exact absurd h2 (by decide)

/-- The UPC message differs from every per-track ISRC message. -/
theorem msgUpc_ne_msgIsrc (i : Nat) (t : Str) :
    MetadataScanner.msgUpc ≠ MetadataScanner.msgIsrc i t := by
  intro h
  have h2 := congrArg List.head? h
  have e1 : (MetadataScanner.msgUpc).head? = some 'U' := rfl
  have e2 : (MetadataScanner.msgIsrc i t).head? = some 'T' := rfl
  rw [e1, e2] at h2
  exact absurd h2 (by decide)

/-- The track-count message differs from every per-track ISRC message
(after the shared prefix the former continues with a letter, the latter
with a digit of the rendered index). -/
theorem msgTrackCountMismatch_ne_msgIsrc (m n i : Nat) (t : Str) :
    MetadataScanner.msgTrackCountMismatch m n ≠
      MetadataScanner.msgIsrc i t := by
  intro h
  have h6 := congrArg (List.drop 6) h
  have e1 : (MetadataScanner.msgTrackCountMismatch m n).drop 6 =
      "count mismatch: metadata has ".toList ++ natToStr m ++
        " tracks, found ".toList ++ natToStr n ++ " audio files".toList :=
    rfl
  have e2 : (MetadataScanner.msgIsrc i t).drop 6 =
      natToStr (i + 1) ++ " (".toList ++ t ++
        "): Invalid ISRC format".toList := rfl
  rw [e1, e2] at h6
  simp only [List.append_assoc] at h6
  cases hnat : natToStr (i + 1) with
  | nil => exact absurd hnat (natToStr_ne_nil (i + 1))
  | cons c0 cs =>
    rw [hnat] at h6
    have hc0 : c0 = 'c' := by
      have := congrArg List.head? h6
      have eL : ("count mismatch: metadata has ".toList ++
          (natToStr m ++ (" tracks, found ".toList ++
            (natToStr n ++ " audio files".toList)))).head? = some 'c' := rfl
      rw [eL] at this
      simp only [List.cons_append, List.head?_cons] at this
      exact (Option.some.injEq _ _ ▸ this).symm
    have hdig := natToStr_all_digits (i + 1)
    rw [hnat] at hdig
    simp only [List.all_cons, Bool.and_eq_true] at hdig
    rw [hc0] at hdig
    exact absurd hdig.1 (by decide)

/-- The ISRC message never coincides with a message whose head is the
letter `'A'` (the three fixed requirement messages). -/
theorem msgIsrc_ne_of_head_A (i : Nat) (t : Str) (s : Str)
    (hs : s.head? = some 'A') : MetadataScanner.msgIsrc i t ≠ s := by
  intro h
  have h2 := congrArg List.head? h
  have e1 : (MetadataScanner.msgIsrc i t).head? = some 'T' := rfl
  rw [e1, hs] at h2
  exact absurd h2 (by decide)

/-- The accumulated error list of the validator on a record whose
`metadata` is present, spelled out segment by segment. -/
theorem validateAlbumData_errors_structure
    (ad : AlbumDataLike) (md : AlbumMetadata) (hmd : ad.metadata = some md) :
    (MetadataScanner.validateAlbumData (some ad)).errors =
      (if MetadataScanner.strBlank md.artist then
        [MetadataScanner.msgArtistRequired] else []) ++
      ((if MetadataScanner.strBlank md.album then
        [MetadataScanner.msgAlbumTitleRequired] else []) ++
      ((match md.tracks with
        | none => [MetadataScanner.msgTracksRequired]
        | some mts => if mts.isEmpty then
            [MetadataScanner.msgTracksRequired] else []) ++
      ((match ad.tracks, md.tracks with
        | some ats, some mts =>
          if ats.length ≠ mts.length then
            [MetadataScanner.msgTrackCountMismatch mts.length ats.length]
          else []
        | _, _ => []) ++
      ((match md.upc with
        | none => []
        | some u => if !u.isEmpty && !MetadataScanner.upcOk u then
            [MetadataScanner.msgUpc] else []) ++
      (match md.tracks with
        | none => []
        | some mts => MetadataScanner.isrcErrs mts))))) := by
  simp only [MetadataScanner.validateAlbumData, hmd, List.append_assoc]

/-- The UPC error appears in the validator's output exactly when `upc` is
present, non-empty and fails the pattern. -/
theorem validate_upc_mem_iff
    (ad : AlbumDataLike) (md : AlbumMetadata) (hmd : ad.metadata = some md) :
    MetadataScanner.msgUpc ∈
      (MetadataScanner.validateAlbumData (some ad)).errors ↔
    ∃ u, md.upc = some u ∧ u ≠ [] ∧ MetadataScanner.upcOk u = false := by
  rw [validateAlbumData_errors_structure ad md hmd]
  simp only [List.mem_append]
  have notA : MetadataScanner.msgUpc ∉
      (if MetadataScanner.strBlank md.artist then
        [MetadataScanner.msgArtistRequired] else []) := by
    split <;> decide
  have notB : MetadataScanner.msgUpc ∉
      (if MetadataScanner.strBlank md.album then
        [MetadataScanner.msgAlbumTitleRequired] else []) := by
    split <;> decide
  have notC : MetadataScanner.msgUpc ∉
      (match md.tracks with
        | none => [MetadataScanner.msgTracksRequired]
        | some mts => if mts.isEmpty then
            [MetadataScanner.msgTracksRequired] else []) := by
    split
    · decide
    · split <;> decide
  have notD : MetadataScanner.msgUpc ∉
      (match ad.tracks, md.tracks with
        | some ats, some mts =>
          if ats.length ≠ mts.length then
            [MetadataScanner.msgTrackCountMismatch mts.length ats.length]
          else []
        | _, _ => []) := by
    split
    · split
      · intro hmem
        rw [List.mem_singleton] at hmem
        exact absurd hmem (msgUpc_ne_msgTrackCountMismatch _ _)
      · simp
    · simp
  have notF : MetadataScanner.msgUpc ∉
      (match md.tracks with
        | none => []
        | some mts => MetadataScanner.isrcErrs mts) := by
    split
    · simp
    · intro hmem
      unfold MetadataScanner.isrcErrs at hmem
      rw [List.mem_filterMap] at hmem
      obtain ⟨p, _, hfp⟩ := hmem
      split at hfp
      · exact absurd (Option.some.inj hfp).symm (msgUpc_ne_msgIsrc _ _)
      · exact absurd hfp (by simp)
  have e5iff : MetadataScanner.msgUpc ∈
      (match md.upc with
        | none => []
        | some u => if !u.isEmpty && !MetadataScanner.upcOk u then
            [MetadataScanner.msgUpc] else []) ↔
      ∃ u, md.upc = some u ∧ u ≠ [] ∧ MetadataScanner.upcOk u = false := by
    cases hupc : md.upc with
    | none => simp
    | some u =>
      dsimp only
      by_cases hc : (!u.isEmpty && !MetadataScanner.upcOk u) = true
      · rw [if_pos hc]
        simp only [Bool.and_eq_true, Bool.not_eq_true'] at hc
        constructor
        · intro _
          exact ⟨u, rfl, by simpa [List.isEmpty_iff] using hc.1, hc.2⟩
        · intro _
          exact List.mem_singleton_self _
      · rw [if_neg hc]
        simp only [List.not_mem_nil, false_iff]
        rintro ⟨u', hu', hne, hbad⟩
        rw [Option.some.injEq] at hu'
        subst hu'
        apply hc
        simp only [Bool.and_eq_true, Bool.not_eq_true']
        exact ⟨by simpa [List.isEmpty_iff] using hne, hbad⟩
  constructor
  · intro h
    rcases h with h | h | h | h | h | h
    · exact absurd h notA
    · exact absurd h notB
    · exact absurd h notC
    · exact absurd h notD
    · exact e5iff.mp h
    · exact absurd h notF
  · intro h
    exact Or.inr (Or.inr (Or.inr (Or.inr (Or.inl (e5iff.mpr h)))))

/-- The per-track ISRC error for track `i` appears in the validator's
output exactly when that track's `isrc` is present, non-empty and fails
the pattern. -/
theorem validate_isrc_mem_iff
    (ad : AlbumDataLike) (md : AlbumMetadata)
    (mts : List MetaTrack) (i : Nat) (mt : MetaTrack)
    (hmd : ad.metadata = some md) (hmts : md.tracks = some mts)
    (hget : mts[i]? = some mt) :
    MetadataScanner.msgIsrc i mt.title ∈
      (MetadataScanner.validateAlbumData (some ad)).errors ↔
    ∃ s, mt.isrc = some s ∧ s ≠ [] ∧ MetadataScanner.isrcOk s = false := by
  rw [validateAlbumData_errors_structure ad md hmd]
  simp only [List.mem_append]
  have notA : MetadataScanner.msgIsrc i mt.title ∉
      (if MetadataScanner.strBlank md.artist then
        [MetadataScanner.msgArtistRequired] else []) := by
    split
    · intro hmem
      rw [List.mem_singleton] at hmem
      exact absurd hmem (msgIsrc_ne_of_head_A i mt.title _ rfl)
    · simp
  have notB : MetadataScanner.msgIsrc i mt.title ∉
      (if MetadataScanner.strBlank md.album then
        [MetadataScanner.msgAlbumTitleRequired] else []) := by
    split
    · intro hmem
      rw [List.mem_singleton] at hmem
      exact absurd hmem (msgIsrc_ne_of_head_A i mt.title _ rfl)
    · simp
  have notC : MetadataScanner.msgIsrc i mt.title ∉
      (match md.tracks with
        | none => [MetadataScanner.msgTracksRequired]
        | some mts => if mts.isEmpty then
            [MetadataScanner.msgTracksRequired] else []) := by
    have hA : MetadataScanner.msgIsrc i mt.title ≠
        MetadataScanner.msgTracksRequired :=
      msgIsrc_ne_of_head_A i mt.title _ rfl
    split
    · intro hmem
      rw [List.mem_singleton] at hmem
      exact absurd hmem hA
    · split
      · intro hmem
        rw [List.mem_singleton] at hmem
        exact absurd hmem hA
      · simp
  have notD : MetadataScanner.msgIsrc i mt.title ∉
      (match ad.tracks, md.tracks with
        | some ats, some mts =>
          if ats.length ≠ mts.length then
            [MetadataScanner.msgTrackCountMismatch mts.length ats.length]
          else []
        | _, _ => []) := by
    split
    · split
      · intro hmem
        rw [List.mem_singleton] at hmem
        exact absurd hmem.symm (msgTrackCountMismatch_ne_msgIsrc _ _ _ _)
      · simp
    · simp
  have notE : MetadataScanner.msgIsrc i mt.title ∉
      (match md.upc with
        | none => []
        | some u => if !u.isEmpty && !MetadataScanner.upcOk u then
            [MetadataScanner.msgUpc] else []) := by
    split
    · simp
    · split
      · intro hmem
        rw [List.mem_singleton] at hmem
        exact absurd hmem.symm (msgUpc_ne_msgIsrc _ _)
      · simp
  have e6iff : MetadataScanner.msgIsrc i mt.title ∈
      (match md.tracks with
        | none => []
        | some mts => MetadataScanner.isrcErrs mts) ↔
      ∃ s, mt.isrc = some s ∧ s ≠ [] ∧ MetadataScanner.isrcOk s = false := by
    rw [hmts]
    dsimp only
    unfold MetadataScanner.isrcErrs
    rw [List.mem_filterMap]
    constructor
    · rintro ⟨⟨j, tr⟩, hmem, hfp⟩
      split at hfp
      · have hinj := msgIsrc_inj (Option.some.inj hfp)
        obtain ⟨rfl, htitle⟩ := hinj
        have hjt : mts[j]? = some tr :=
          (List.mk_mem_enum_iff_getElem?).mp hmem
        rw [hget] at hjt
        have htr : tr = mt := (Option.some.inj hjt).symm ▸ rfl
        subst htr
        rename_i hbad
        unfold MetadataScanner.isrcBad at hbad
        revert hbad
        cases hisrc : tr.isrc with
        | none => simp
        | some s =>
          intro hbad
          simp only [Bool.and_eq_true, Bool.not_eq_true'] at hbad
          exact ⟨s, rfl, by simpa [List.isEmpty_iff] using hbad.1, hbad.2⟩
      · exact absurd hfp (by simp)
    · rintro ⟨s, hs, hne, hbad⟩
      refine ⟨(i, mt), (List.mk_mem_enum_iff_getElem?).mpr hget, ?_⟩
      have hcond : MetadataScanner.isrcBad mt = true := by
        unfold MetadataScanner.isrcBad
        rw [hs]
        simp only [Bool.and_eq_true, Bool.not_eq_true']
        exact ⟨by simpa [List.isEmpty_iff] using hne, hbad⟩
      rw [if_pos hcond]
  constructor
  · intro h
    rcases h with h | h | h | h | h | h
    · exact absurd h notA
    · exact absurd h notB
    · exact absurd h notC
    · exact absurd h notD
    · exact absurd h notE
    · exact e6iff.mp h
  · intro h
    exact Or.inr (Or.inr (Or.inr (Or.inr (Or.inr (e6iff.mpr h)))))

/-- C8 (amended): `validateAlbumData` reports the UPC error exactly when
`upc` is present, non-empty and fails the 12-digit pattern, and reports the
per-track ISRC error naming track `i` exactly when that track's `isrc` is
present, non-empty and fails the ISRC pattern.  (The unamended claim
omits "non-empty": the code's truthiness test skips an empty string.) -/
theorem validateAlbumData_upc_isrc_exactness
    (ad : AlbumDataLike) (md : AlbumMetadata) (hmd : ad.metadata = some md) :
    (MetadataScanner.msgUpc ∈
        (MetadataScanner.validateAlbumData (some ad)).errors ↔
      ∃ u, md.upc = some u ∧ u ≠ [] ∧ MetadataScanner.upcOk u = false) ∧
    (∀ (mts : List MetaTrack) (i : Nat) (mt : MetaTrack),
      md.tracks = some mts → mts[i]? = some mt →
      (MetadataScanner.msgIsrc i mt.title ∈
          (MetadataScanner.validateAlbumData (some ad)).errors ↔
        ∃ s, mt.isrc = some s ∧ s ≠ [] ∧
          MetadataScanner.isrcOk s = false)) := by
  refine ⟨validate_upc_mem_iff ad md hmd, ?_⟩
  intro mts i mt hmts hget
  exact validate_isrc_mem_iff ad md mts i mt hmd hmts hget

/-- Witness for C8: on the claim's concrete values, `"12345"` yields the
UPC error, `"INVALID"` yields the ISRC error for track 1, and
`"USXXX2500001"` yields no ISRC error for track 2. -/
theorem validateAlbumData_upc_isrc_exactness_witness :
    MetadataScanner.msgUpc ∈
      (MetadataScanner.validateAlbumData
        (some ⟨some c8BadMeta, none⟩)).errors ∧
    MetadataScanner.msgIsrc 0 "T".toList ∈
      (MetadataScanner.validateAlbumData
        (some ⟨some c8BadMeta, none⟩)).errors ∧
    MetadataScanner.msgIsrc 1 "U".toList ∉
      (MetadataScanner.validateAlbumData
        (some ⟨some c8BadMeta, none⟩)).errors := by
  have h := validateAlbumData_upc_isrc_exactness ⟨some c8BadMeta, none⟩
    c8BadMeta rfl
  refine ⟨?_, ?_, ?_⟩
  · exact h.1.mpr ⟨"12345".toList, rfl, by decide, by decide⟩
  · exact (h.2 _ 0 ⟨"T".toList, some "INVALID".toList, false⟩ rfl rfl).mpr
      ⟨"INVALID".toList, rfl, by decide, by decide⟩
  · intro hmem
    have := (h.2 _ 1 ⟨"U".toList, some "USXXX2500001".toList, false⟩
      rfl rfl).mp hmem
    obtain ⟨s, hs, _, hbad⟩ := this
    have : s = "USXXX2500001".toList := Option.some.inj hs.symm
    subst this
    exact absurd hbad (by decide)

/-- Counterexample for C8: metadata whose `upc` is the (present) empty
string, which fails the pattern, yet the validator reports no UPC error —
so the unamended "exactly when present and non-matching" is false. -/
theorem validateAlbumData_empty_upc_no_error :
    c8EmptyUpcMeta.upc = some [] ∧
    MetadataScanner.upcOk [] = false ∧
    MetadataScanner.msgUpc ∉
      (MetadataScanner.validateAlbumData
        (some ⟨some c8EmptyUpcMeta, none⟩)).errors := by
  refine ⟨rfl, by decide, by decide⟩

/-! ## Helper lemmas: first-match semantics of `find?` -/

/-- The function `find?` returns the element at the least satisfying index. -/
theorem find?_eq_of_first {α : Type} (p : α → Bool) :
    ∀ (l : List α) (j : Nat) (a : α), l[j]? = some a → p a = true →
    (∀ k b, k < j → l[k]? = some b → p b = false) → l.find? p = some a := by
  intro l
  induction l with
  | nil => intro j a hj _ _; simp at hj
  | cons x xs ih =>
    intro j a hj hp hmin
    cases j with
    | zero =>
      simp only [List.getElem?_cons_zero, Option.some.injEq] at hj
      subst hj
      rw [List.find?_cons_of_pos _ hp]
    | succ j' =>
      have hx : p x = false := hmin 0 x (Nat.succ_pos j') (by simp)
      rw [List.find?_cons_of_neg _ (by simp [hx])]
      simp only [List.getElem?_cons_succ] at hj
      exact ih j' a hj hp fun k b hk hb =>
        hmin (k + 1) b (Nat.succ_lt_succ hk) (by simpa using hb)

/-- The function `find?` misses iff no element satisfies the test. -/
theorem find?_eq_none_of_all {α : Type} (p : α → Bool) (l : List α)
    (h : ∀ (j : Nat) (a : α), l[j]? = some a → p a = false) :
    l.find? p = none := by
  rw [List.find?_eq_none]
  intro x hx
  obtain ⟨j, hjlt, hj⟩ := List.getElem_of_mem hx
  have hj2 : l[j]? = some x := by
    rw [List.getElem?_eq_getElem hjlt, hj]
  simp [h j x hj2]

/-- C3: `matchTracksWithMetadata` returns exactly one output per audio
file, in the audio files' order: position `i` of the output carries the
merge of audio file `i` with the first (least-index) metadata track whose
normalised title matches, or the audio file with the `isrc: null,
explicit: false` defaults when none matches.  Together with the length
equation this determines the whole output, so metadata tracks with no
matching audio file appear nowhere in it. -/
theorem matchTracksWithMetadata_spec
    (audioFiles : List AudioTrack) (metadataTracks : List MetaTrack) :
    (MetadataScanner.matchTracksWithMetadata audioFiles
      metadataTracks).length = audioFiles.length ∧
    ∀ (i : Nat) (af : AudioTrack), audioFiles[i]? = some af →
      ((∀ (j : Nat) (mt : MetaTrack), metadataTracks[j]? = some mt →
          MetadataScanner.normalizeTitle mt.title ≠
            MetadataScanner.normalizeTitle af.title) →
        (MetadataScanner.matchTracksWithMetadata audioFiles
          metadataTracks)[i]? =
          some (MetadataScanner.unmatchedTrack af)) ∧
      (∀ (j : Nat) (mt : MetaTrack), metadataTracks[j]? = some mt →
        MetadataScanner.normalizeTitle mt.title =
          MetadataScanner.normalizeTitle af.title →
        (∀ (k : Nat) (mt' : MetaTrack), k < j →
          metadataTracks[k]? = some mt' →
          MetadataScanner.normalizeTitle mt'.title ≠
            MetadataScanner.normalizeTitle af.title) →
        (MetadataScanner.matchTracksWithMetadata audioFiles
          metadataTracks)[i]? =
          some (MetadataScanner.mergeTrack af mt)) := by
  constructor
  · exact List.length_map audioFiles _
  · intro i af hi
    constructor
    · intro hnone
      unfold MetadataScanner.matchTracksWithMetadata
      rw [List.getElem?_map, hi]
      have hfind : metadataTracks.find?
          (fun mt => MetadataScanner.normalizeTitle mt.title ==
            MetadataScanner.normalizeTitle af.title) = none := by
        apply find?_eq_none_of_all
        intro j mt hj
        have := hnone j mt hj
        simpa using this
      simp [hfind]
    · intro j mt hj heq hmin
      unfold MetadataScanner.matchTracksWithMetadata
      rw [List.getElem?_map, hi]
      have hfind : metadataTracks.find?
          (fun mt => MetadataScanner.normalizeTitle mt.title ==
            MetadataScanner.normalizeTitle af.title) = some mt := by
        apply find?_eq_of_first _ metadataTracks j mt hj (by simpa using heq)
        intro k mt' hk hk2
        have := hmin k mt' hk hk2
        simpa using this
      simp [hfind]

/-- Witness for C3: with two metadata tracks both matching the audio file
up to case, the first one (in the given order) is merged. -/
theorem matchTracksWithMetadata_spec_witness :
    (MetadataScanner.matchTracksWithMetadata [c3Audio]
      [c3Meta1, c3Meta2])[0]? =
      some (MetadataScanner.mergeTrack c3Audio c3Meta1) :=
  ((matchTracksWithMetadata_spec [c3Audio] [c3Meta1, c3Meta2]).2 0 c3Audio
    (by decide)).2 0 c3Meta1 (by decide) (by decide)
    (fun k mt' hk _ => absurd hk (Nat.not_lt_zero k))

/-! ## Helper lemmas: file-name decomposition -/

/-- Separators (hyphen/white space) are never digits. -/
theorem isSepChar_not_digit (c : Char) (h : isSepChar c = true) :
    isDigitCh c = false := by
  simp only [isSepChar, isWsChar, Bool.or_eq_true, beq_iff_eq,
    Bool.and_eq_true, decide_eq_true_eq] at h
  simp only [isDigitCh, Bool.and_eq_true, decide_eq_true_eq,
    Bool.eq_false_iff, ne_eq, not_and, not_le]
  omega

/-- Value of `extname` on a name split at its last dot (a non-empty
extension also rules out the special name `'..'`). -/
theorem extnameOf_decomp (core ext : Str) (hcore : core ≠ [])
    (hext : '.' ∉ ext) (hextne : ext ≠ []) :
    extnameOf (core ++ '.' :: ext) = '.' :: ext := by
  have hdots : ¬core ++ '.' :: ext = ['.', '.'] := by
    intro heq
    have hlen := congrArg List.length heq
    simp at hlen
    have h1 : 0 < core.length := List.length_pos.mpr hcore
    have h2 : 0 < ext.length := List.length_pos.mpr hextne
    omega
  unfold extnameOf
  rw [if_neg hdots]
  have hr : (core ++ '.' :: ext).reverse =
      ext.reverse ++ '.' :: core.reverse := by
    simp
  rw [hr]
  have htw : (ext.reverse ++ '.' :: core.reverse).takeWhile
      (fun c => c != '.') = ext.reverse := by
    rw [List.takeWhile_append_of_pos]
    · rw [List.takeWhile_cons_of_neg (by simp)]
      simp
    · intro a ha
      rw [List.mem_reverse] at ha
      simp only [bne_iff_ne, ne_eq]
      intro hdot
      exact hext (hdot ▸ ha)
  rw [htw]
  dsimp only
  have hclen : 0 < core.length := List.length_pos.mpr hcore
  have hc1 : (ext.reverse.length == (core ++ '.' :: ext).length) = false := by
    simp only [beq_eq_false_iff_ne, ne_eq, List.length_reverse,
      List.length_append, List.length_cons]
    omega
  have hc2 : (ext.reverse.length + 1 == (core ++ '.' :: ext).length) =
      false := by
    simp only [beq_eq_false_iff_ne, ne_eq, List.length_reverse,
      List.length_append, List.length_cons]
    omega
  rw [hc1, hc2]
  simp

/-- Value of `nameWithoutExt` on a name split at its last dot. -/
theorem stemOf_decomp (core ext : Str) (hcore : core ≠ [])
    (hext : '.' ∉ ext) (hextne : ext ≠ []) :
    stemOf (core ++ '.' :: ext) = core := by
  unfold stemOf
  rw [extnameOf_decomp core ext hcore hext hextne]
  have : (core ++ '.' :: ext).length - ('.' :: ext).length = core.length := by
    simp
  rw [this]
  exact List.take_left core ('.' :: ext)

/-- The normalised format of a name split at its last dot. -/
theorem extLower_decomp (core ext : Str) (hcore : core ≠ [])
    (hext : '.' ∉ ext) (hextne : ext ≠ []) :
    extLower (core ++ '.' :: ext) = ext.map Char.toLower := by
  unfold extLower
  rw [extnameOf_decomp core ext hcore hext hextne]
  simp

/-- Both track-number patterns on a stem of the shape
digits ++ separators ++ remainder with a non-empty separator run and a
remainder that does not begin with a separator: both match and capture
(digits, remainder). -/
theorem trackPatternMatch_decomp
    (digits seps rest : Str)
    (hd : digits ≠ []) (hdall : digits.all isDigitCh = true)
    (hs : seps ≠ []) (hsall : seps.all isSepChar = true)
    (hr : rest ≠ [])
    (hrhead : ∀ c, rest.head? = some c → isSepChar c = false)
    (hrlt : rest.all (fun c => !isLineTermCh c) = true) :
    FileScanner.trackPatternMatch (digits ++ (seps ++ rest)) =
      some (digitsToNat digits, rest) ∧
    MetadataScanner.trackPatternMatch (digits ++ (seps ++ rest)) =
      some (digitsToNat digits, rest) := by
  obtain ⟨s0, srest, rfl⟩ := List.exists_cons_of_ne_nil hs
  have hs0 : isSepChar s0 = true := by
    simp only [List.all_cons, Bool.and_eq_true] at hsall
    exact hsall.1
  have hsrest : srest.all isSepChar = true := by
    simp only [List.all_cons, Bool.and_eq_true] at hsall
    exact hsall.2
  have htake : (digits ++ (s0 :: srest ++ rest)).takeWhile isDigitCh =
      digits := by
    rw [List.takeWhile_append_of_pos (by simpa [List.all_eq_true] using hdall)]
    rw [List.cons_append, List.takeWhile_cons_of_neg (by
      simp [isSepChar_not_digit s0 hs0])]
    simp
  have hdrop : (digits ++ (s0 :: srest ++ rest)).dropWhile isDigitCh =
      s0 :: srest ++ rest := by
    rw [List.dropWhile_append_of_pos (by simpa [List.all_eq_true] using hdall)]
    rw [List.cons_append, List.dropWhile_cons_of_neg (by
      simp [isSepChar_not_digit s0 hs0])]
  have hsepdrop : (s0 :: (srest ++ rest)).dropWhile isSepChar = rest := by
    rw [List.dropWhile_cons_of_pos hs0]
    rw [List.dropWhile_append_of_pos (by simpa [List.all_eq_true] using hsrest)]
    obtain ⟨r0, rrest, rfl⟩ := List.exists_cons_of_ne_nil hr
    rw [List.dropWhile_cons_of_neg (by simp [hrhead r0 rfl])]
  constructor
  · unfold FileScanner.trackPatternMatch
    rw [htake, hdrop]
    rw [if_neg (by simp [hd])]
    rw [if_neg (by simp)]
    rw [List.cons_append, hsepdrop]
    rw [if_neg (by simp [hr])]
    rw [if_pos hrlt]
  · unfold MetadataScanner.trackPatternMatch
    rw [htake, hdrop]
    rw [if_neg (by simp [hd])]
    dsimp only [List.cons_append]
    rw [if_pos hs0]
    rw [hsepdrop]
    rw [if_neg (by simp [hr])]
    rw [if_pos hrlt]

/-- C5 (amended): for every file name of leading digits, a non-empty
whitespace/hyphen separator run, a non-empty remainder that neither starts
with a separator nor contains a line terminator, and a supported
extension, both scanners' `extractTrackInfo` return the digits' integer
value as `trackNumber`, the remainder with separators stripped and
surrounding white space trimmed as `title`, and the lowercased dot-free
extension as `format`.  (The unamended claim says `title` is the
remainder verbatim and places no line-terminator restriction on it; the
code applies `title.trim()` to the captured group, and the regex's final
`.+` cannot match a line terminator at all, so on such remainders the
pattern fails and the whole stem becomes the title — both failures are in
the counterexample.) -/
theorem extractTrackInfo_on_convention
    (digits seps rest ext : Str) (filePath : FsPath)
    (hd : digits ≠ []) (hdall : digits.all isDigitCh = true)
    (hs : seps ≠ []) (hsall : seps.all isSepChar = true)
    (hr : rest ≠ [])
    (hrhead : ∀ c, rest.head? = some c → isSepChar c = false)
    (hrlt : rest.all (fun c => !isLineTermCh c) = true)
    (hext : '.' ∉ ext)
    (hfmt : supportedFormats.contains (ext.map Char.toLower) = true) :
    FileScanner.extractTrackInfo
        ((digits ++ (seps ++ rest)) ++ '.' :: ext) filePath =
      { filename := (digits ++ (seps ++ rest)) ++ '.' :: ext
        path := filePath, trackNumber := digitsToNat digits
        title := trimWs rest, format := ext.map Char.toLower } ∧
    MetadataScanner.extractTrackInfo
        ((digits ++ (seps ++ rest)) ++ '.' :: ext) filePath =
      { filename := (digits ++ (seps ++ rest)) ++ '.' :: ext
        path := filePath, trackNumber := digitsToNat digits
        title := trimWs rest, format := ext.map Char.toLower } := by
  have hcore : digits ++ (seps ++ rest) ≠ [] := by
    simp [hd]
  have hextne : ext ≠ [] := by
    intro hnil
    subst hnil
    exact absurd hfmt (by decide)
  have hstem := stemOf_decomp (digits ++ (seps ++ rest)) ext hcore hext
    hextne
  have hextl := extLower_decomp (digits ++ (seps ++ rest)) ext hcore hext
    hextne
  have hpat := trackPatternMatch_decomp digits seps rest hd hdall hs hsall
    hr hrhead hrlt
  constructor
  · unfold FileScanner.extractTrackInfo
    dsimp only
    rw [hstem, hpat.1, hextl]
  · unfold MetadataScanner.extractTrackInfo
    dsimp only
    rw [hstem, hpat.2, hextl]

/-- Witness for C5: the canonical `"01 - Title.wav"`. -/
theorem extractTrackInfo_on_convention_witness :
    FileScanner.extractTrackInfo "01 - Title.wav".toList [] =
      { filename := "01 - Title.wav".toList, path := []
        trackNumber := 1, title := "Title".toList
        format := "wav".toList } ∧
    MetadataScanner.extractTrackInfo "01 - Title.wav".toList [] =
      { filename := "01 - Title.wav".toList, path := []
        trackNumber := 1, title := "Title".toList
        format := "wav".toList } := by
  have h := extractTrackInfo_on_convention "01".toList " - ".toList
    "Title".toList "wav".toList [] (by decide) (by decide) (by decide)
    (by decide) (by decide)
    (fun c hc => by
      have h0 : ("Title".toList.head? : Option Char) = some 'T' := rfl
      rw [h0] at hc
      cases hc
      decide)
    (by decide) (by decide) (by decide)
  exact h

/-- Counterexample for C5, refuting the unamended claim at two inputs of
its universe: `"1 - Title .wav"` has remainder `"Title "` but both
parsers return the trimmed `"Title"`, not the remainder verbatim; and
`"1 - a\nb.wav"` has the non-empty remainder `"a\nb"` but the regexes'
final `.+` cannot cross the line terminator, so both parsers fall back to
the whole stem `"1 - a\nb"` as the title instead of the remainder. -/
theorem extractTrackInfo_trailing_space_trimmed :
    ("1 - Title .wav".toList =
      ("1".toList ++ (" - ".toList ++ "Title ".toList)) ++
        '.' :: "wav".toList ∧
    "1".toList ≠ [] ∧ "1".toList.all isDigitCh = true ∧
    " - ".toList ≠ [] ∧ " - ".toList.all isSepChar = true ∧
    "Title ".toList ≠ [] ∧
    "Title ".toList.head? = some 'T' ∧ isSepChar 'T' = false ∧
    ('.' ∉ "wav".toList) ∧
    supportedFormats.contains ("wav".toList.map Char.toLower) = true ∧
    (FileScanner.extractTrackInfo "1 - Title .wav".toList []).title ≠
      "Title ".toList ∧
    (MetadataScanner.extractTrackInfo "1 - Title .wav".toList []).title ≠
      "Title ".toList) ∧
    ("1 - a\nb.wav".toList =
      ("1".toList ++ (" - ".toList ++ "a\nb".toList)) ++
        '.' :: "wav".toList ∧
    "a\nb".toList ≠ [] ∧
    "a\nb".toList.head? = some 'a' ∧ isSepChar 'a' = false ∧
    (FileScanner.extractTrackInfo "1 - a\nb.wav".toList []).title =
      "1 - a\nb".toList ∧
    (MetadataScanner.extractTrackInfo "1 - a\nb.wav".toList []).title =
      "1 - a\nb".toList ∧
    "1 - a\nb".toList ≠ "a\nb".toList) := by
  decide

/-- The two track-number patterns agree on stems with no leading digit
and on stems whose digit run is followed by a separator and at least one
further character. -/
theorem trackPatternMatch_agree (st : Str)
    (hcond : st.takeWhile isDigitCh = [] ∨
      ((∃ c, (st.dropWhile isDigitCh).head? = some c ∧ isSepChar c = true) ∧
       2 ≤ (st.dropWhile isDigitCh).length)) :
    FileScanner.trackPatternMatch st = MetadataScanner.trackPatternMatch st := by
  unfold FileScanner.trackPatternMatch MetadataScanner.trackPatternMatch
  dsimp only
  by_cases hd : (st.takeWhile isDigitCh).isEmpty
  · rw [if_pos hd, if_pos hd]
  · rw [if_neg hd, if_neg hd]
    have hright : (∃ c, (st.dropWhile isDigitCh).head? = some c ∧
        isSepChar c = true) ∧ 2 ≤ (st.dropWhile isDigitCh).length := by
      rcases hcond with hleft | hright
      · exact absurd (by simp [hleft]) hd
      · exact hright
    obtain ⟨⟨c, hhead, hsep⟩, hlen⟩ := hright
    cases ht : st.dropWhile isDigitCh with
    | nil => rw [ht] at hlen; simp at hlen
    | cons c0 t' =>
      rw [ht] at hhead hlen
      have hc0 : c0 = c := by
        simpa using hhead
      subst hc0
      rw [if_neg (by simp)]
      dsimp only
      rw [if_pos hsep]
      by_cases hre : ((c0 :: t').dropWhile isSepChar).isEmpty
      · rw [if_pos hre, if_pos hre, if_pos hlen]
      · rw [if_neg hre, if_neg hre]

/-- C6 (amended): the two scanners' extension filters are identical, and
their per-file parsers return the same track record on every file name
whose stem either has no leading digit or has its digit run followed by a
separator and at least one further character; outside that set the two
parsers can disagree — the counterexample `"01Title.wav"` (digits glued
to the title) is one such stem. -/
theorem scanners_per_file_agreement (fname : Str) (filePath : FsPath) :
    FileScanner.isAudioFile fname = MetadataScanner.isAudioFile fname ∧
    (((stemOf fname).takeWhile isDigitCh = [] ∨
      ((∃ c, ((stemOf fname).dropWhile isDigitCh).head? = some c ∧
          isSepChar c = true) ∧
        2 ≤ ((stemOf fname).dropWhile isDigitCh).length)) →
      FileScanner.extractTrackInfo fname filePath =
        MetadataScanner.extractTrackInfo fname filePath) := by
  refine ⟨rfl, ?_⟩
  intro hcond
  have hpat := trackPatternMatch_agree (stemOf fname) hcond
  unfold FileScanner.extractTrackInfo MetadataScanner.extractTrackInfo
  dsimp only
  rw [hpat]

/-- Witness for C6: the two parsers agree on `"02 - B.flac"`. -/
theorem scanners_per_file_agreement_witness :
    FileScanner.isAudioFile "02 - B.flac".toList =
      MetadataScanner.isAudioFile "02 - B.flac".toList ∧
    FileScanner.extractTrackInfo "02 - B.flac".toList [] =
      MetadataScanner.extractTrackInfo "02 - B.flac".toList [] :=
  ⟨(scanners_per_file_agreement "02 - B.flac".toList []).1,
   (scanners_per_file_agreement "02 - B.flac".toList []).2
     (Or.inr ⟨⟨' ', by decide, by decide⟩, by decide⟩)⟩

/-- Counterexample for C6: on `"01Title.wav"` (digits glued to the title)
FileScanner still splits off the digits while MetadataScanner requires a
separator and falls back to the whole stem, so the two parsers return
different records. -/
theorem scanners_per_file_disagreement :
    FileScanner.extractTrackInfo "01Title.wav".toList [] ≠
      MetadataScanner.extractTrackInfo "01Title.wav".toList [] := by
  decide

/-! ## Helper lemmas: words, collapse and trim -/

/-- The word splitter ignores extra fuel. -/
theorem wordsOfAux_fuel_irrel :
    ∀ f1 f2 (s : Str), s.length < f1 → s.length < f2 →
      wordsOfAux f1 s = wordsOfAux f2 s := by
  intro f1
  induction f1 with
  | zero => intro f2 s h1 _; exact absurd h1 (Nat.not_lt_zero _)
  | succ g ih =>
    intro f2 s h1 h2
    cases f2 with
    | zero => exact absurd h2 (Nat.not_lt_zero _)
    | succ g2 =>
      show (match s.dropWhile isWsChar with
            | [] => []
            | c :: cs => (c :: cs.takeWhile (fun d => !isWsChar d)) ::
                wordsOfAux g (cs.dropWhile (fun d => !isWsChar d))) =
           (match s.dropWhile isWsChar with
            | [] => []
            | c :: cs => (c :: cs.takeWhile (fun d => !isWsChar d)) ::
                wordsOfAux g2 (cs.dropWhile (fun d => !isWsChar d)))
      cases hdw : s.dropWhile isWsChar with
      | nil => rfl
      | cons c cs =>
        have hcs : cs.length < s.length := by
          have h3 : (c :: cs).length ≤ s.length := by
            rw [← hdw]
            exact (s.dropWhile_sublist isWsChar).length_le
          simp only [List.length_cons] at h3
          omega
        have hrest : (cs.dropWhile (fun d => !isWsChar d)).length ≤
            cs.length := (cs.dropWhile_sublist _).length_le
        dsimp only
        rw [ih g2 (cs.dropWhile (fun d => !isWsChar d)) (by omega) (by omega)]

/-- Unfolding `wordsOf` when the string is all white space (or empty). -/
theorem wordsOf_nil {s : Str} (h : s.dropWhile isWsChar = []) :
    wordsOf s = [] := by
  unfold wordsOf wordsOfAux
  rw [h]

/-- Unfolding `wordsOf` at its first word. -/
theorem wordsOf_cons {s : Str} {c : Char} {cs : Str}
    (h : s.dropWhile isWsChar = c :: cs) :
    wordsOf s = (c :: cs.takeWhile (fun d => !isWsChar d)) ::
      wordsOf (cs.dropWhile (fun d => !isWsChar d)) := by
  unfold wordsOf
  show (match s.length + 1 with
        | 0 => []
        | f + 1 =>
          match s.dropWhile isWsChar with
          | [] => []
          | c :: cs => (c :: cs.takeWhile (fun d => !isWsChar d)) ::
              wordsOfAux f (cs.dropWhile (fun d => !isWsChar d))) = _
  rw [show s.length + 1 = s.length + 1 from rfl]
  dsimp only
  rw [h]
  have hcs : cs.length < s.length := by
    have h3 : (c :: cs).length ≤ s.length := by
      rw [← h]
      exact (s.dropWhile_sublist isWsChar).length_le
    simp only [List.length_cons] at h3
    omega
  have hrest : (cs.dropWhile (fun d => !isWsChar d)).length ≤ cs.length :=
    (cs.dropWhile_sublist _).length_le
  dsimp only
  rw [wordsOfAux_fuel_irrel s.length
    ((cs.dropWhile (fun d => !isWsChar d)).length + 1)
    (cs.dropWhile (fun d => !isWsChar d)) (by omega) (by omega)]

/-- A list with no white space passes through `dropWhile isWsChar`. -/
theorem dropWhile_ws_of_all_neg {l : Str}
    (h : l.all (fun c => !isWsChar c) = true) :
    l.dropWhile isWsChar = l := by
  cases l with
  | nil => rfl
  | cons c cs =>
    simp only [List.all_cons, Bool.and_eq_true, Bool.not_eq_true'] at h
    rw [List.dropWhile_cons_of_neg (by simp [h.1])]

/-- The function `takeWhile` keeps a list all of whose elements pass. -/
theorem takeWhile_of_all_pos {p : Char → Bool} {l : Str}
    (h : ∀ a ∈ l, p a = true) : l.takeWhile p = l := by
  have h2 : (l ++ ([] : Str)).takeWhile p = l ++ ([] : Str).takeWhile p :=
    List.takeWhile_append_of_pos h
  simpa using h2

/-- The function `dropWhile` drops a list all of whose elements pass. -/
theorem dropWhile_of_all_pos {p : Char → Bool} {l : Str}
    (h : ∀ a ∈ l, p a = true) : l.dropWhile p = [] := by
  have h2 : (l ++ ([] : Str)).dropWhile p = ([] : Str).dropWhile p :=
    List.dropWhile_append_of_pos h
  simpa using h2

/-- Equation lemma for `collapseWsAux` on a cons cell. -/
theorem collapseWsAux_cons (b : Bool) (c : Char) (cs : Str) :
    MetadataScanner.collapseWsAux b (c :: cs) =
      if isWsChar c then
        (if b then MetadataScanner.collapseWsAux true cs
         else ' ' :: MetadataScanner.collapseWsAux true cs)
      else c :: MetadataScanner.collapseWsAux false cs := rfl

/-- Collapsing outside a run passes a white-space-free prefix through. -/
theorem collapseWsAux_wsfree_left {w : Str}
    (h : w.all (fun c => !isWsChar c) = true) (z : Str) :
    MetadataScanner.collapseWsAux false (w ++ z) =
      w ++ MetadataScanner.collapseWsAux false z := by
  induction w with
  | nil => rfl
  | cons c cs ih =>
    simp only [List.all_cons, Bool.and_eq_true, Bool.not_eq_true'] at h
    rw [List.cons_append, collapseWsAux_cons, if_neg (by simp [h.1])]
    rw [ih h.2]
    rfl

/-- Collapsing inside a run skips the rest of the run. -/
theorem collapseWsAux_true_wsrun {run : Str}
    (h : run.all isWsChar = true) (z : Str) :
    MetadataScanner.collapseWsAux true (run ++ z) =
      MetadataScanner.collapseWsAux true z := by
  induction run with
  | nil => rfl
  | cons c cs ih =>
    simp only [List.all_cons, Bool.and_eq_true] at h
    rw [List.cons_append, collapseWsAux_cons, if_pos h.1, if_pos rfl]
    exact ih h.2

/-- Collapsing a white-space-free string is the identity. -/
theorem collapseWs_of_wsfree {w : Str}
    (h : w.all (fun c => !isWsChar c) = true) :
    MetadataScanner.collapseWs w = w := by
  have h1 := collapseWsAux_wsfree_left h []
  have h0 : MetadataScanner.collapseWsAux false ([] : Str) = [] := rfl
  rw [h0, List.append_nil] at h1
  exact h1

/-- Trailing-trim distributes over an append whose right part keeps a
character. -/
theorem dropTrailWs_append {a b : Str} (h : dropTrailWs b ≠ []) :
    dropTrailWs (a ++ b) = a ++ dropTrailWs b := by
  unfold dropTrailWs at h ⊢
  rw [List.reverse_append]
  rw [List.dropWhile_append]
  have hne : ¬(b.reverse.dropWhile isWsChar).isEmpty = true := by
    intro hempty
    rw [List.isEmpty_iff] at hempty
    rw [hempty] at h
    simp at h
  rw [if_neg hne]
  simp

/-- Trailing-trim of something ending in an all-white-space run. -/
theorem dropTrailWs_append_wsrun {w r : Str}
    (hw : w.all (fun c => !isWsChar c) = true)
    (hr : r.all isWsChar = true) :
    dropTrailWs (w ++ r) = w := by
  unfold dropTrailWs
  rw [List.reverse_append]
  rw [List.dropWhile_append_of_pos (by
    intro a ha
    rw [List.mem_reverse] at ha
    exact (List.all_eq_true.mp hr) a ha)]
  rw [dropWhile_ws_of_all_neg (by
    rw [List.all_eq_true] at hw ⊢
    intro a ha
    exact hw a (List.mem_reverse.mp ha))]
  simp

/-- Trailing-trim keeps a non-white-space head. -/
theorem dropTrailWs_cons_of_neg {c : Char} {l : Str}
    (h : isWsChar c = false) :
    dropTrailWs (c :: l) = c :: dropTrailWs l := by
  by_cases hl : dropTrailWs l = []
  · have hrev : l.reverse.dropWhile isWsChar = [] := by
      unfold dropTrailWs at hl
      simpa using congrArg List.reverse hl
    unfold dropTrailWs
    rw [show (c :: l).reverse = l.reverse ++ [c] by simp]
    rw [List.dropWhile_append, hrev]
    simp [List.dropWhile_cons_of_neg (by simp [h] : ¬isWsChar c = true)]
  · rw [show (c :: l) = [c] ++ l from rfl, dropTrailWs_append hl]
    rfl

/-- spaceJoin on a cons with non-empty tail. -/
theorem spaceJoin_cons_cons (w w' : Str) (ws' : List Str) :
    spaceJoin (w :: w' :: ws') = w ++ ' ' :: spaceJoin (w' :: ws') := rfl

/-- The head of `dropWhile isWsChar` is not white space. -/
theorem head_dropWhile_ws_neg {s : Str} {c : Char} {cs : Str}
    (h : s.dropWhile isWsChar = c :: cs) : isWsChar c = false := by
  have := List.head?_dropWhile_not isWsChar s
  rw [h] at this
  simpa using this

/-- The head of `dropWhile (not white space)` is white space. -/
theorem head_dropWhile_not_ws_pos {s : Str} {c : Char} {cs : Str}
    (h : s.dropWhile (fun d => !isWsChar d) = c :: cs) :
    isWsChar c = true := by
  have := List.head?_dropWhile_not (fun d => !isWsChar d) s
  rw [h] at this
  simpa using this

/-- Every character a `takeWhile p` keeps satisfies `p`. -/
theorem all_takeWhile (p : Char → Bool) (l : Str) :
    (l.takeWhile p).all p = true := by
  rw [List.all_eq_true]
  intro a ha
  exact List.mem_takeWhile_imp ha

/-- Key normal-form lemma: collapsing the trimmed string is joining its
words by single spaces. -/
theorem collapseWs_trimWs_eq_spaceJoin_wordsOf (u : Str) :
    MetadataScanner.collapseWs (trimWs u) = spaceJoin (wordsOf u) := by
  suffices h : ∀ (n : Nat) (s : Str), s.length ≤ n →
      MetadataScanner.collapseWs (trimWs s) = spaceJoin (wordsOf s) from
    h u.length u le_rfl
  intro n
  induction n with
  | zero =>
    intro s hs
    have : s = [] := List.length_eq_zero.mp (Nat.le_zero.mp hs)
    subst this
    rfl
  | succ n ih =>
    intro s hs
    cases hd : s.dropWhile isWsChar with
    | nil =>
      rw [wordsOf_nil hd]
      unfold trimWs
      rw [hd]
      rfl
    | cons c cs =>
      have hc : isWsChar c = false := head_dropWhile_ws_neg hd
      set tw := cs.takeWhile (fun d => !isWsChar d) with htw
      set rest := cs.dropWhile (fun d => !isWsChar d) with hrest
      have hsplit : c :: cs = (c :: tw) ++ rest := by
        rw [htw, hrest]
        simp
      have hwall : (c :: tw).all (fun d => !isWsChar d) = true := by
        rw [List.all_cons]
        rw [htw]
        simp only [Bool.and_eq_true]
        exact ⟨by simp [hc], all_takeWhile _ _⟩
      have hlen : cs.length < s.length := by
        have h3 : (c :: cs).length ≤ s.length := by
          rw [← hd]
          exact (s.dropWhile_sublist isWsChar).length_le
        simp only [List.length_cons] at h3
        omega
      rw [wordsOf_cons hd]
      unfold trimWs
      rw [hd, hsplit]
      cases hrd : rest.dropWhile isWsChar with
      | nil =>
        have hrall : rest.all isWsChar = true := by
          rw [List.all_eq_true]
          exact fun a ha => List.dropWhile_eq_nil_iff.mp hrd a ha
        rw [wordsOf_nil hrd]
        rw [dropTrailWs_append_wsrun hwall hrall]
        show MetadataScanner.collapseWs (c :: tw) = spaceJoin [c :: tw]
        rw [collapseWs_of_wsfree hwall]
        rfl
      | cons r0 rs =>
        have hr0 : isWsChar r0 = false := head_dropWhile_ws_neg hrd
        have hrestlen : rest.length ≤ cs.length := by
          rw [hrest]
          exact (cs.dropWhile_sublist _).length_le
        have hihrest := ih rest (by omega)
        rw [wordsOf_cons hrd] at hihrest ⊢
        set rtw := rs.takeWhile (fun d => !isWsChar d)
        set rrest := rs.dropWhile (fun d => !isWsChar d)
        rw [spaceJoin_cons_cons]
        -- right-hand side: (c :: tw) ++ ' ' :: spaceJoin (wordsOf rest words)
        -- trim of rest inside the IH:
        have htrimrest : trimWs rest = dropTrailWs (r0 :: rs) := by
          unfold trimWs
          rw [hrd]
        rw [htrimrest] at hihrest
        -- decompose rest into its leading white-space run and the core
        have hrsplit : rest = rest.takeWhile isWsChar ++ (r0 :: rs) := by
          rw [← hrd]
          simp
        have hrwsall : (rest.takeWhile isWsChar).all isWsChar = true :=
          all_takeWhile _ _
        -- the core keeps its head after trailing trim
        have hcore : dropTrailWs (r0 :: rs) = r0 :: dropTrailWs rs :=
          dropTrailWs_cons_of_neg hr0
        have hcorene : dropTrailWs (r0 :: rs) ≠ [] := by
          rw [hcore]
          simp
        -- trailing trim of the whole string
        have hdtw : dropTrailWs ((c :: tw) ++ rest) =
            (c :: tw) ++ (rest.takeWhile isWsChar ++ dropTrailWs (r0 :: rs)) := by
          have h1 : dropTrailWs rest =
              rest.takeWhile isWsChar ++ dropTrailWs (r0 :: rs) := by
            conv =>
              lhs
              rw [hrsplit]
            exact dropTrailWs_append hcorene
          have h2 : dropTrailWs rest ≠ [] := by
            rw [h1]
            intro hcontra
            rcases List.append_eq_nil.mp hcontra with ⟨_, h4⟩
            exact hcorene h4
          rw [dropTrailWs_append h2, h1]
        rw [hdtw]
        -- the leading run of rest is non-empty and all white space
        have hrest0 : ∃ w0 wres, rest.takeWhile isWsChar = w0 :: wres := by
          cases hrt : rest.takeWhile isWsChar with
          | cons w0 wres => exact ⟨w0, wres, rfl⟩
          | nil =>
            exfalso
            -- rest is non-empty with white-space head
            cases hre : rest with
            | nil =>
              rw [hre] at hrd
              simp at hrd
            | cons e0 es =>
              have he0 : isWsChar e0 = true := by
                apply head_dropWhile_not_ws_pos (s := cs)
                rw [← hrest, hre]
              rw [hre] at hrt
              rw [List.takeWhile_cons_of_pos he0] at hrt
              cases hrt
        obtain ⟨w0, wres, hw0⟩ := hrest0
        have hw0ws : isWsChar w0 = true := by
          have := hrwsall
          rw [hw0] at this
          simp only [List.all_cons, Bool.and_eq_true] at this
          exact this.1
        have hwresws : wres.all isWsChar = true := by
          have := hrwsall
          rw [hw0] at this
          simp only [List.all_cons, Bool.and_eq_true] at this
          exact this.2
        -- collapse the whole thing
        unfold MetadataScanner.collapseWs
        rw [collapseWsAux_wsfree_left hwall]
        rw [hw0, hcore]
        simp only [List.cons_append]
        rw [collapseWsAux_cons, if_pos hw0ws, if_neg (by simp)]
        rw [collapseWsAux_true_wsrun hwresws]
        rw [collapseWsAux_cons, if_neg (by simp [hr0])]
        -- fold back the IH
        unfold MetadataScanner.collapseWs at hihrest
        rw [hcore, collapseWsAux_cons, if_neg (by simp [hr0])] at hihrest
        rw [hihrest]

/-- Every word produced by `wordsOf` is non-empty and white-space-free. -/
theorem wordsOf_valid (s : Str) :
    ∀ w ∈ wordsOf s, w ≠ [] ∧ w.all (fun c => !isWsChar c) = true := by
  suffices h : ∀ (n : Nat) (s : Str), s.length ≤ n →
      ∀ w ∈ wordsOf s, w ≠ [] ∧ w.all (fun c => !isWsChar c) = true from
    h s.length s le_rfl
  intro n
  induction n with
  | zero =>
    intro s hs
    have : s = [] := List.length_eq_zero.mp (Nat.le_zero.mp hs)
    subst this
    intro w hw
    rw [wordsOf_nil (s := []) rfl] at hw
    cases hw
  | succ n ih =>
    intro s hs w hw
    cases hd : s.dropWhile isWsChar with
    | nil =>
      rw [wordsOf_nil hd] at hw
      cases hw
    | cons c cs =>
      have hc : isWsChar c = false := head_dropWhile_ws_neg hd
      have hlen : cs.length < s.length := by
        have h3 : (c :: cs).length ≤ s.length := by
          rw [← hd]
          exact (s.dropWhile_sublist isWsChar).length_le
        simp only [List.length_cons] at h3
        omega
      rw [wordsOf_cons hd] at hw
      rcases List.mem_cons.mp hw with hhead | htail
      · subst hhead
        refine ⟨by simp, ?_⟩
        rw [List.all_cons]
        simp only [Bool.and_eq_true]
        exact ⟨by simp [hc], all_takeWhile _ _⟩
      · have hrl : (cs.dropWhile (fun d => !isWsChar d)).length ≤ cs.length :=
          (cs.dropWhile_sublist _).length_le
        exact ih (cs.dropWhile (fun d => !isWsChar d)) (by omega) w htail

/-- The splitter `wordsOf` only looks at the string after its leading white space. -/
theorem wordsOf_congr {s1 s2 : Str}
    (h : s1.dropWhile isWsChar = s2.dropWhile isWsChar) :
    wordsOf s1 = wordsOf s2 := by
  cases hd : s1.dropWhile isWsChar with
  | nil =>
    have hd2 : s2.dropWhile isWsChar = [] := by rw [← h, hd]
    rw [wordsOf_nil hd, wordsOf_nil hd2]
  | cons c cs =>
    have hd2 : s2.dropWhile isWsChar = c :: cs := by rw [← h, hd]
    rw [wordsOf_cons hd, wordsOf_cons hd2]

/-- Splitting a space-joined list of valid words recovers the list. -/
theorem wordsOf_spaceJoin :
    ∀ ws' : List Str,
      (∀ w ∈ ws', w ≠ [] ∧ w.all (fun c => !isWsChar c) = true) →
      wordsOf (spaceJoin ws') = ws' := by
  intro ws'
  induction ws' with
  | nil => intro _; exact wordsOf_nil (s := []) rfl
  | cons w tail ih =>
    intro hval
    obtain ⟨hwne, hwall⟩ := hval w (List.mem_cons_self w tail)
    obtain ⟨c, cs, rfl⟩ := List.exists_cons_of_ne_nil hwne
    have hcall : isWsChar c = false ∧
        cs.all (fun d => !isWsChar d) = true := by
      rw [List.all_cons] at hwall
      simp only [Bool.and_eq_true, Bool.not_eq_true'] at hwall
      exact ⟨hwall.1, by
        rw [List.all_eq_true]
        intro a ha
        have := List.all_eq_true.mp hwall.2 a ha
        simpa using this⟩
    cases tail with
    | nil =>
      show wordsOf (c :: cs) = [c :: cs]
      have hdw : (c :: cs).dropWhile isWsChar = c :: cs := by
        rw [List.dropWhile_cons_of_neg (by simp [hcall.1])]
      rw [wordsOf_cons hdw]
      rw [takeWhile_of_all_pos (fun a ha => by
        have := List.all_eq_true.mp hcall.2 a ha
        simpa using this)]
      rw [dropWhile_of_all_pos (fun a ha => by
        have := List.all_eq_true.mp hcall.2 a ha
        simpa using this)]
      rw [wordsOf_nil (s := []) rfl]
    | cons w' tail' =>
      rw [spaceJoin_cons_cons]
      have hdw : ((c :: cs) ++ ' ' :: spaceJoin (w' :: tail')).dropWhile
          isWsChar = c :: (cs ++ ' ' :: spaceJoin (w' :: tail')) := by
        rw [List.cons_append]
        rw [List.dropWhile_cons_of_neg (by simp [hcall.1])]
      rw [wordsOf_cons hdw]
      have htk : (cs ++ ' ' :: spaceJoin (w' :: tail')).takeWhile
          (fun d => !isWsChar d) = cs := by
        rw [List.takeWhile_append_of_pos (fun a ha => by
          have := List.all_eq_true.mp hcall.2 a ha
          simpa using this)]
        rw [List.takeWhile_cons_of_neg (by decide)]
        simp
      have hdr : (cs ++ ' ' :: spaceJoin (w' :: tail')).dropWhile
          (fun d => !isWsChar d) = ' ' :: spaceJoin (w' :: tail') := by
        rw [List.dropWhile_append_of_pos (fun a ha => by
          have := List.all_eq_true.mp hcall.2 a ha
          simpa using this)]
        rw [List.dropWhile_cons_of_neg (by decide)]
      rw [htk, hdr]
      have hcongr : wordsOf (' ' :: spaceJoin (w' :: tail')) =
          wordsOf (spaceJoin (w' :: tail')) := by
        apply wordsOf_congr
        rw [List.dropWhile_cons_of_pos (by decide)]
      rw [hcongr]
      rw [ih (fun x hx => hval x (List.mem_cons_of_mem _ hx))]

/-- The function `normalizeTitle` is the space-join of the lower-cased words. -/
theorem normalizeTitle_eq_spaceJoin (s : Str) :
    MetadataScanner.normalizeTitle s = spaceJoin (wordsLower s) :=
  collapseWs_trimWs_eq_spaceJoin_wordsOf (s.map Char.toLower)

/-- C4: two titles are matched by `matchTracksWithMetadata`'s
normalised-title test exactly when they differ only by letter case and/or
by runs of white space (including leading and trailing white space) —
i.e. when their lower-cased word sequences coincide; and on a single
audio-file/metadata-track pair the reconciliation merges them when the
word sequences coincide and keeps the defaults when they do not. -/
theorem normalizeTitle_match_iff_wordsLower :
    (∀ s t : Str, MetadataScanner.normalizeTitle s =
        MetadataScanner.normalizeTitle t ↔ wordsLower s = wordsLower t) ∧
    (∀ (af : AudioTrack) (mt : MetaTrack),
      wordsLower mt.title = wordsLower af.title →
      MetadataScanner.matchTracksWithMetadata [af] [mt] =
        [MetadataScanner.mergeTrack af mt]) ∧
    (∀ (af : AudioTrack) (mt : MetaTrack),
      wordsLower mt.title ≠ wordsLower af.title →
      MetadataScanner.matchTracksWithMetadata [af] [mt] =
        [MetadataScanner.unmatchedTrack af]) := by
  have hiff : ∀ s t : Str, MetadataScanner.normalizeTitle s =
      MetadataScanner.normalizeTitle t ↔ wordsLower s = wordsLower t := by
    intro s t
    constructor
    · intro h
      have hs := normalizeTitle_eq_spaceJoin s
      have ht := normalizeTitle_eq_spaceJoin t
      calc wordsLower s
          = wordsOf (spaceJoin (wordsLower s)) :=
            (wordsOf_spaceJoin _ (wordsOf_valid _)).symm
        _ = wordsOf (MetadataScanner.normalizeTitle s) := by rw [hs]
        _ = wordsOf (MetadataScanner.normalizeTitle t) := by rw [h]
        _ = wordsOf (spaceJoin (wordsLower t)) := by rw [ht]
        _ = wordsLower t := wordsOf_spaceJoin _ (wordsOf_valid _)
    · intro h
      rw [normalizeTitle_eq_spaceJoin, normalizeTitle_eq_spaceJoin, h]
  refine ⟨hiff, ?_, ?_⟩
  · intro af mt h
    unfold MetadataScanner.matchTracksWithMetadata
    rw [List.map_cons, List.map_nil]
    rw [List.find?_cons_of_pos _ (by
      simp only [beq_iff_eq]
      exact (hiff mt.title af.title).mpr h)]
  · intro af mt h
    unfold MetadataScanner.matchTracksWithMetadata
    rw [List.map_cons, List.map_nil]
    rw [List.find?_cons_of_neg _ (by
      simp only [beq_iff_eq]
      exact fun hc => h ((hiff mt.title af.title).mp hc))]
    rw [List.find?_nil]

/-- Witness for C4: `" TracK  One "` and `"track one"` differ only by
case and white-space runs and are merged; `"track two"` is not. -/
theorem normalizeTitle_match_iff_wordsLower_witness :
    MetadataScanner.matchTracksWithMetadata
      [⟨"01 - track one.wav".toList, [], 1, "track one".toList,
        "wav".toList⟩]
      [⟨" TracK  One ".toList, none, false⟩] =
      [MetadataScanner.mergeTrack
        ⟨"01 - track one.wav".toList, [], 1, "track one".toList,
          "wav".toList⟩
        ⟨" TracK  One ".toList, none, false⟩] ∧
    MetadataScanner.matchTracksWithMetadata
      [⟨"01 - track one.wav".toList, [], 1, "track one".toList,
        "wav".toList⟩]
      [⟨"track two".toList, none, false⟩] =
      [MetadataScanner.unmatchedTrack
        ⟨"01 - track one.wav".toList, [], 1, "track one".toList,
          "wav".toList⟩] :=
  ⟨normalizeTitle_match_iff_wordsLower.2.1 _ _ (by decide),
   normalizeTitle_match_iff_wordsLower.2.2 _ _ (by decide)⟩
